import Mathlib

/-!
Sudoku engine: constraint checker, generator, completion checker, solver

A shallow embedding of `src/sudoku.cpp` (puzzle variant) and `src/solver.cpp`
(open-solver variant; its `isValidEntry` and `autoComplete` are textually the
same as the puzzle variant's).

* `sudokuGrid` (`std::vector<std::vector<int>>`, fixed 9x9) is a function
  `Nat → Nat → Int`; only indices below `gridSize` are read or written by the
  embedded code when it is entered with in-range arguments.
* The process-wide globals are collected in `State` and passed explicitly.
* The random engine is a parameter: the shuffled `baseRow` and the stream of
  raw `gen()` outputs consumed by the removal loop.
* The recursive lambda `solve` is structurally recursive on a call-depth
  budget; `solve_terminates` shows that 82 levels always suffice from (0,0).
-/

namespace Sudoku

/-! ## Data model -/

/-- Constant `gridSize` of both source files. -/
def gridSize : Nat := 9

/-- Cell values `sudokuGrid[row][col]`. -/
abbrev Grid := Nat → Nat → Int

/-- Boolean masks `isEditable[row][col]`, `isIncorrect[row][col]`. -/
abbrev Mask := Nat → Nat → Bool

/-- The global variables of `sudoku.cpp`. -/
structure State where
  sudokuGrid : Grid
  isEditable : Mask
  isIncorrect : Mask
  selectedRow : Int
  selectedCol : Int
  difficultyLevel : Int

/-- Assignment `sudokuGrid[row][col] = v`. -/
def setCell (g : Grid) (row col : Nat) (v : Int) : Grid :=
  fun r c => if r = row ∧ c = col then v else g r c

/-- Assignment `mask[row][col] = b`. -/
def setFlag (m : Mask) (row col : Nat) (b : Bool) : Mask :=
  fun r c => if r = row ∧ c = col then b else m r c

/-- Grid created by `std::vector<std::vector<int>>(gridSize, std::vector<int>(gridSize, 0))`. -/
def emptyGrid : Grid := fun _ _ => 0

/-- Mask created by `std::vector<std::vector<bool>>(gridSize, std::vector<bool>(gridSize, false))`. -/
def falseMask : Mask := fun _ _ => false

/-! ## Constraint checker -/

/-- Function `isValidEntry(row, col, value)`: scans all nine cells of the row and of the
column, then all nine cells of the 3x3 box, returning false at the first cell equal to
`value`. -/
def isValidEntry (g : Grid) (row col : Nat) (value : Int) : Bool :=
  if (List.range gridSize).any (fun i => g row i == value || g i col == value) then false
  else
    let boxRow := (row / 3) * 3
    let boxCol := (col / 3) * 3
    if (List.range 3).any (fun i => (List.range 3).any (fun j =>
        g (boxRow + i) (boxCol + j) == value)) then false
    else true

/-! ## Completion checker -/

/-- Inner `for (col ...)` loop of `isPuzzleSolved` for one row. The Boolean is `false`
when the loop body executed `return false`, `true` when the loop ran to its end. -/
def isPuzzleSolvedCols (row : Nat) : List Nat → State → Bool × State
  | [], s => (true, s)
  | col :: cols, s =>
    let val := s.sudokuGrid row col
    if val = 0 then (false, s)
    else
      let s1 := { s with sudokuGrid := setCell s.sudokuGrid row col 0 }
      if !isValidEntry s1.sudokuGrid row col val then
        (false, { s1 with sudokuGrid := setCell s1.sudokuGrid row col val })
      else
        isPuzzleSolvedCols row cols { s1 with sudokuGrid := setCell s1.sudokuGrid row col val }

/-- Outer `for (row ...)` loop of `isPuzzleSolved`. -/
def isPuzzleSolvedRows : List Nat → State → Bool × State
  | [], s => (true, s)
  | row :: rows, s =>
    match isPuzzleSolvedCols row (List.range gridSize) s with
    | (false, s1) => (false, s1)
    | (true, s1) => isPuzzleSolvedRows rows s1

/-- Function `isPuzzleSolved()`: its return value and the globals it leaves. -/
def isPuzzleSolved (s : State) : Bool × State :=
  isPuzzleSolvedRows (List.range gridSize) s

/-! ## Solver -/

/-- The `for (int num = 1; num <= gridSize; ++num)` loop of `solve` at an empty cell,
over the candidates still to try; `k` is the recursive call `solve(nextRow, nextCol)`.
`none` propagates an exhausted call-depth budget. -/
def tryCandidates (k : State → Option (Bool × State)) (row col : Nat) :
    List Int → State → Option (Bool × State)
  | [], s => some (false, s)
  | num :: nums, s =>
    if isValidEntry s.sudokuGrid row col num then
      match k { s with sudokuGrid := setCell s.sudokuGrid row col num } with
      | none => none
      | some (true, s1) => some (true, s1)
      | some (false, s1) =>
        tryCandidates k row col nums { s1 with sudokuGrid := setCell s1.sudokuGrid row col 0 }
    else tryCandidates k row col nums s

/-- Candidate values `1, 2, ..., gridSize` in the order the loop visits them. -/
def candidates : List Int := (List.range gridSize).map (fun (i : Nat) => (i : Int) + 1)

/-- The recursive lambda `solve(row, col)` of `autoComplete`. The first argument bounds the
depth of the C++ call stack; `none` means the bound was reached. The redraw calls
(`InvalidateRect`, `UpdateWindow`) do not touch the globals and are omitted. -/
def solve : Nat → Nat → Nat → State → Option (Bool × State)
  | 0, _, _, _ => none
  | depth + 1, row, col, s =>
    if row = gridSize then some (true, s)
    else
      let nextRow := if col = gridSize - 1 then row + 1 else row
      let nextCol := if col = gridSize - 1 then 0 else col + 1
      if s.sudokuGrid row col ≠ 0 then solve depth nextRow nextCol s
      else tryCandidates (solve depth nextRow nextCol) row col candidates s

/-- Call depth that `solve(0, 0)` can reach: one frame per cell plus the final
`row == gridSize` frame. -/
def solveDepth : Nat := gridSize * gridSize + 1

/-- Function `autoComplete(hwnd)`: runs `solve(0, 0)`; the Boolean result of the search is
kept alongside the final globals. -/
def autoComplete (s : State) : Option (Bool × State) :=
  solve solveDepth 0 0 s

/-! ## Generator -/

/-- Index into `baseRow` used for cell `(row, col)`. -/
def baseIndex (row col : Nat) : Nat := (col + row * 3 + row / 3) % gridSize

/-- Inner loop of the base-grid construction for one row. -/
def fillRow (baseRow : List Int) (row : Nat) (g : Grid) : Grid :=
  (List.range gridSize).foldl
    (fun g col => setCell g row col (baseRow.getD (baseIndex row col) 0)) g

/-- Both loops of the base-grid construction (the pre-removal grid). -/
def fillGrid (baseRow : List Int) (g : Grid) : Grid :=
  (List.range gridSize).foldl (fun g row => fillRow baseRow row g) g

/-- The `cellsToRemove` selection by `difficultyLevel`. -/
def cellsToRemove (difficultyLevel : Int) : Nat :=
  if difficultyLevel = 0 then 30
  else if difficultyLevel = 1 then 45
  else 70

/-- One iteration of the removal loop; `raw` holds the two values returned by `gen()`. -/
def removeCell (s : State) (raw : Nat × Nat) : State :=
  let row := raw.1 % gridSize
  let col := raw.2 % gridSize
  { s with sudokuGrid := setCell s.sudokuGrid row col 0,
           isEditable := setFlag s.isEditable row col true }

/-- The removal loop `for (int i = 0; i < cellsToRemove; ++i)`; `gen i` is the pair of raw
engine outputs consumed by iteration `i`. -/
def removeLoop (gen : Nat → Nat × Nat) (n : Nat) (s : State) : State :=
  (List.range n).foldl (fun st i => removeCell st (gen i)) s

/-- Function `populateSudokuGrid()`. `baseRow` is the vector after `std::shuffle`;
`gen` is the stream of raw engine outputs read by the removal loop. -/
def populateSudokuGrid (s : State) (baseRow : List Int) (gen : Nat → Nat × Nat) : State :=
  let s0 := { s with sudokuGrid := emptyGrid, isEditable := falseMask, isIncorrect := falseMask }
  let s1 := { s0 with sudokuGrid := fillGrid baseRow s0.sudokuGrid }
  removeLoop gen (cellsToRemove s.difficultyLevel) s1

/-! ## Window procedure (puzzle variant) -/

/-- Constant `cellSize` of both source files. -/
def cellSize : Nat := 50

/-- Windows virtual-key code of the Backspace key (`winuser.h`). -/
def VK_BACK : Nat := 8

/-- Windows virtual-key code of the Delete key (`winuser.h`). -/
def VK_DELETE : Nat := 46

/-- Windows macro `LOWORD`: the low 16 bits of a message parameter. -/
def LOWORD (l : Nat) : Nat := l % 65536

/-- Windows macro `HIWORD`: bits 16..31 of a message parameter. -/
def HIWORD (l : Nat) : Nat := (l / 65536) % 65536

/-- The statement `int key = wParam - '0'`: the unsigned difference, wrapped, read back as a
32-bit signed `int`. -/
def keyOf (wParam : Nat) : Int :=
  let u := (wParam + (4294967296 - 48)) % 4294967296
  if u < 2147483648 then (u : Int) else (u : Int) - 4294967296

/-- Handler `case WM_LBUTTONDOWN` of `sudoku.cpp`. The quotients `x`, `y` come from unsigned
words, so the tests `x >= 0`, `y >= 0` always pass. -/
def onLButtonDown (s : State) (lParam : Nat) : State :=
  let x := LOWORD lParam / cellSize
  let y := HIWORD lParam / cellSize
  if x < gridSize ∧ y < gridSize ∧ s.isEditable y x = true then
    { s with selectedRow := (y : Int), selectedCol := (x : Int) }
  else s

/-- Handler `case WM_KEYDOWN` of `sudoku.cpp`. The redraw request and the message box do not
touch the globals and are omitted; the call of `isPuzzleSolved` is kept for its effect on the
globals. -/
def onKeyDown (s : State) (wParam : Nat) : State :=
  if s.selectedRow ≠ -1 ∧ s.selectedCol ≠ -1 ∧
      s.isEditable s.selectedRow.toNat s.selectedCol.toNat = true then
    let key := keyOf wParam
    if 1 ≤ key ∧ key ≤ 9 then
      let s1 : State :=
        if isValidEntry s.sudokuGrid s.selectedRow.toNat s.selectedCol.toNat key then
          { s with
            sudokuGrid := setCell s.sudokuGrid s.selectedRow.toNat s.selectedCol.toNat key,
            isIncorrect := setFlag s.isIncorrect s.selectedRow.toNat s.selectedCol.toNat false }
        else
          { s with
            sudokuGrid := setCell s.sudokuGrid s.selectedRow.toNat s.selectedCol.toNat key,
            isIncorrect := setFlag s.isIncorrect s.selectedRow.toNat s.selectedCol.toNat true }
      (isPuzzleSolved s1).2
    else if wParam = VK_BACK ∨ wParam = VK_DELETE then
      { s with
        sudokuGrid := setCell s.sudokuGrid s.selectedRow.toNat s.selectedCol.toNat 0,
        isIncorrect := setFlag s.isIncorrect s.selectedRow.toNat s.selectedCol.toNat false }
    else s
  else s

/-- Handler of the Auto Complete button (`WM_COMMAND`, id 3) of `sudoku.cpp`: runs
`autoComplete`, then `isPuzzleSolved`. -/
def onAutoComplete (s : State) : Option State :=
  match autoComplete s with
  | none => none
  | some (_, s1) => some (isPuzzleSolved s1).2

/-- User actions between two generations. -/
inductive Event where
  | click (lParam : Nat)
  | key (wParam : Nat)
  | solver

/-- Dispatch of one message to its handler. -/
def applyEvent (s : State) : Event → Option State
  | Event.click lParam => some (onLButtonDown s lParam)
  | Event.key wParam => some (onKeyDown s wParam)
  | Event.solver => onAutoComplete s

/-- The message loop over a finite sequence of user actions. -/
def runEvents : State → List Event → Option State
  | s, [] => some s
  | s, e :: es =>
    match applyEvent s e with
    | none => none
    | some s1 => runEvents s1 es

/-! ## Specification vocabulary -/

/-- Cell `(r', c')` lies in the row, the column or the 3x3 box of cell `(r, c)`. -/
def sees (r c r' c' : Nat) : Prop :=
  r' = r ∨ c' = c ∨ (r' / 3 = r / 3 ∧ c' / 3 = c / 3)

instance (r c r' c' : Nat) : Decidable (sees r c r' c') := by
  unfold sees; infer_instance

/-- No cell of the board is empty. -/
def noEmpty (g : Grid) : Prop :=
  ∀ r < gridSize, ∀ c < gridSize, g r c ≠ 0

/-- No other cell in the row, the column or the box of `(r, c)` holds the value of `(r, c)`. -/
def noConflictAt (g : Grid) (r c : Nat) : Prop :=
  ∀ r2 < gridSize, ∀ c2 < gridSize, (r2 ≠ r ∨ c2 ≠ c) → sees r c r2 c2 → g r2 c2 ≠ g r c

instance (g : Grid) (r c : Nat) : Decidable (noConflictAt g r c) := by
  unfold noConflictAt; infer_instance

/-- No two distinct cells that share a row, a column or a box hold the same value. -/
def noConflict (g : Grid) : Prop :=
  ∀ r < gridSize, ∀ c < gridSize, noConflictAt g r c

/-- Every entry of the board is 0 (empty) or a digit 1..9. -/
def entriesInRange (g : Grid) : Prop :=
  ∀ r < gridSize, ∀ c < gridSize, 0 ≤ g r c ∧ g r c ≤ 9

instance (g : Grid) : Decidable (noEmpty g) := by unfold noEmpty; infer_instance
instance (g : Grid) : Decidable (noConflict g) := by unfold noConflict; infer_instance
instance (g : Grid) : Decidable (entriesInRange g) := by unfold entriesInRange; infer_instance

/-- The digits 1..9. -/
def digits : List Int := [1, 2, 3, 4, 5, 6, 7, 8, 9]

/-- The nine cells of row `r`. -/
def rowCells (r : Nat) : List (Nat × Nat) := (List.range gridSize).map (fun c => (r, c))

/-- The nine cells of column `c`. -/
def colCells (c : Nat) : List (Nat × Nat) := (List.range gridSize).map (fun r => (r, c))

/-- The nine cells of box `b` (boxes numbered row-major, `b = (row/3)*3 + col/3`). -/
def boxCells (b : Nat) : List (Nat × Nat) :=
  (List.range gridSize).map (fun k => ((b / 3) * 3 + k / 3, (b % 3) * 3 + k % 3))

/-- The listed cells contain each of 1..9 exactly once. -/
def exactlyOnce (g : Grid) (cells : List (Nat × Nat)) : Prop :=
  ∀ v ∈ digits, cells.countP (fun p => g p.1 p.2 == v) = 1

/-- Every row, every column and every box contains each of 1..9 exactly once. -/
def validFull (g : Grid) : Prop :=
  ∀ u < gridSize,
    exactlyOnce g (rowCells u) ∧ exactlyOnce g (colCells u) ∧ exactlyOnce g (boxCells u)

instance (g : Grid) (cells : List (Nat × Nat)) : Decidable (exactlyOnce g cells) := by
  unfold exactlyOnce; infer_instance
instance (g : Grid) : Decidable (validFull g) := by unfold validFull; infer_instance

/-- Grid `h` is a valid completion of board `g`: a full valid grid that agrees with every
non-empty cell of `g`. -/
def isCompletion (g h : Grid) : Prop :=
  validFull h ∧ ∀ r < gridSize, ∀ c < gridSize, g r c ≠ 0 → h r c = g r c

/-- Board `g` has at least one valid completion. -/
def hasCompletion (g : Grid) : Prop := ∃ h, isCompletion g h

/-- Boards agree on the 9x9 area. -/
def sameBoard (g h : Grid) : Prop :=
  ∀ r < gridSize, ∀ c < gridSize, h r c = g r c

/-- What one call of the search may change: only grid cells that were empty, and nothing at
all when the call reports failure. -/
def SolveFrame (s : State) (b : Bool) (s' : State) : Prop :=
  s'.isEditable = s.isEditable ∧ s'.isIncorrect = s.isIncorrect ∧
  s'.selectedRow = s.selectedRow ∧ s'.selectedCol = s.selectedCol ∧
  s'.difficultyLevel = s.difficultyLevel ∧
  (∀ r c, s.sudokuGrid r c ≠ 0 → s'.sudokuGrid r c = s.sudokuGrid r c) ∧
  (b = false → s' = s)

/-- Board `f` is a conflict-free filling of `g` from row-major position `p` on: it agrees with
`g` on every non-empty cell and on every cell before `p`, and every cell that is empty in `g`
at position `p` or later holds a digit that no other cell of its row, column or box holds
in `f`. -/
def FillsFrom (g f : Grid) (p : Nat) : Prop :=
  ∀ r < gridSize, ∀ c < gridSize,
    ((g r c ≠ 0 ∨ r * gridSize + c < p) → f r c = g r c) ∧
    ((g r c = 0 ∧ p ≤ r * gridSize + c) → (1 ≤ f r c ∧ f r c ≤ 9) ∧ noConflictAt f r c)

/-- All 81 cells hold a digit 1..9. -/
def allDigits (g : Grid) : Prop :=
  ∀ r < gridSize, ∀ c < gridSize, 1 ≤ g r c ∧ g r c ≤ 9

/-- Every non-empty cell holds a digit 1..9 that no other cell of its row, column or box
holds: the clues do not conflict with each other. -/
def cluesConsistent (g : Grid) : Prop :=
  ∀ r < gridSize, ∀ c < gridSize, g r c ≠ 0 → (1 ≤ g r c ∧ g r c ≤ 9) ∧ noConflictAt g r c

instance (g : Grid) : Decidable (allDigits g) := by unfold allDigits; infer_instance
instance (g : Grid) : Decidable (cluesConsistent g) := by unfold cluesConsistent; infer_instance

/-- The cell cleared by iteration `i` of the removal loop. -/
def drawnCell (gen : Nat → Nat × Nat) (i : Nat) : Nat × Nat :=
  ((gen i).1 % gridSize, (gen i).2 % gridSize)

/-- Cell `(r, c)` is drawn by one of the first `n` iterations of the removal loop. -/
def drawn (gen : Nat → Nat × Nat) (n r c : Nat) : Prop :=
  ∃ i < n, drawnCell gen i = (r, c)

/-- The first `n` drawn cells are pairwise distinct. -/
def distinctDraws (gen : Nat → Nat × Nat) (n : Nat) : Prop :=
  ∀ i < n, ∀ j < n, drawnCell gen i = drawnCell gen j → i = j

instance (gen : Nat → Nat × Nat) (n r c : Nat) : Decidable (drawn gen n r c) := by
  unfold drawn; infer_instance
instance (gen : Nat → Nat × Nat) (n : Nat) : Decidable (distinctDraws gen n) := by
  unfold distinctDraws; infer_instance

/-- The 81 cells of the board. -/
def allCells : List (Nat × Nat) := List.product (List.range gridSize) (List.range gridSize)

/-- Number of empty cells of the board. -/
def emptyCount (g : Grid) : Nat := allCells.countP (fun p => g p.1 p.2 == 0)

/-- Number of cells of the board whose mask bit is false. -/
def falseCount (m : Mask) : Nat := allCells.countP (fun p => !m p.1 p.2)

/-- The pre-removal grid of `populateSudokuGrid`. -/
def baseGrid (baseRow : List Int) : Grid := fillGrid baseRow emptyGrid

/-- Board `a` is at most board `b` in the lexicographic order of the 81 cell values read
row-major: the boards agree, or `a` is smaller at the first cell where they differ. -/
def lexLE (a b : Grid) : Prop :=
  sameBoard a b ∨
  ∃ r < gridSize, ∃ c < gridSize, a r c < b r c ∧
    ∀ r2 < gridSize, ∀ c2 < gridSize, r2 * gridSize + c2 < r * gridSize + c → a r2 c2 = b r2 c2

/-- Some cell other than `(r, c)` in its row, column or box holds `v`. -/
def heldByOther (g : Grid) (r c : Nat) (v : Int) : Prop :=
  ∃ r2 < gridSize, ∃ c2 < gridSize, (r2 ≠ r ∨ c2 ≠ c) ∧ sees r c r2 c2 ∧ g r2 c2 = v

instance (g : Grid) (r c : Nat) (v : Int) : Decidable (heldByOther g r c v) := by
  unfold heldByOther; infer_instance

/-- Board `g` has a conflict-free filling of its empty cells: a full grid that agrees with
every non-empty cell of `g` and gives every empty cell of `g` a digit 1..9 that no other cell
of its row, column or box holds. -/
def hasFilling (g : Grid) : Prop := ∃ f, FillsFrom g f 0

/-- The clue invariant relative to the generated state `g`: the editability mask is the one
generation produced and every non-editable cell of the board holds the value generation
gave it. -/
def ClueInv (g s : State) : Prop :=
  s.isEditable = g.isEditable ∧
  ∀ r < gridSize, ∀ c < gridSize, g.isEditable r c = false → s.sudokuGrid r c = g.sudokuGrid r c

/-! ## Concrete boards used as test inputs -/

/-- Globals around a given grid: masks all false, nothing selected, difficulty Easy. -/
def boardState (g : Grid) : State :=
  { sudokuGrid := g, isEditable := falseMask, isIncorrect := falseMask,
    selectedRow := -1, selectedCol := -1, difficultyLevel := 0 }

/-- The shifted-band grid for the unshuffled `baseRow = 1, ..., 9`. -/
def bandGrid : Grid := fun r c => (((c + r * 3 + r / 3) % 9 : Nat) : Int) + 1

/-- The shifted-band grid with its diagonal cells emptied. -/
def diagPuzzle : Grid := fun r c => if r = c then 0 else bandGrid r c

/-- A full board holding 1 in every cell. -/
def onesGrid : Grid := fun _ _ => 1

/-- Row 0 holds 1..8 and an empty last cell; the cell below that one holds 9; every other
cell is empty. No digit fits the last cell of row 0. -/
def deadEndGrid : Grid := fun r c =>
  if r = 0 ∧ c < 8 then (c : Int) + 1 else if r = 1 ∧ c = 8 then 9 else 0

/-- An otherwise empty board with 5 in its top-left cell. -/
def cornerFive : Grid := setCell emptyGrid 0 0 5

/-- A shuffled `baseRow`. -/
def shuffledRow : List Int := [5, 3, 9, 1, 7, 2, 8, 6, 4]

/-- Engine outputs whose draws walk the board row by row without repetition. -/
def sweepGen : Nat → Nat × Nat := fun i => (i / 9, i)

/-- Engine outputs whose draws all fall on the main diagonal, with repetitions. -/
def diagGen : Nat → Nat × Nat := fun i => (i, i)

/-- The dead-end board with a second 1 added in column 0: its clues conflict with each
other, and still no digit fits the last cell of row 0. -/
def conflictDeadEnd : Grid := fun r c =>
  if r = 0 ∧ c < 8 then (c : Int) + 1
  else if r = 1 ∧ c = 8 then 9
  else if r = 2 ∧ c = 0 then 1
  else 0

/-- The board of 1s with its top-left cell emptied. -/
def onesHole : Grid := fun r c => if r = 0 ∧ c = 0 then 0 else 1

/-- Globals with 5 in the top-left cell, that cell editable and selected, all else empty. -/
def cornerFiveSelected : State :=
  { sudokuGrid := cornerFive, isEditable := setFlag falseMask 0 0 true, isIncorrect := falseMask,
    selectedRow := 0, selectedCol := 0, difficultyLevel := 0 }

/-- The shifted-band grid with the digits 1 and 2 exchanged. -/
def swappedBand : Grid := fun r c =>
  if bandGrid r c = 1 then 2 else if bandGrid r c = 2 then 1 else bandGrid r c

/-- Engine outputs whose draws hit every cell of the shifted-band grid that holds 1 or 2. -/
def onesTwosGen : Nat → Nat × Nat := fun i =>
  (i % 9, 18 - (3 * (i % 9) + (i % 9) / 3) % 9 + (i / 9) % 2)

/-! ## The constraint checker -/

theorem setCell_same (g : Grid) (row col : Nat) (v : Int) : setCell g row col v row col = v := by
  simp [setCell]

theorem setCell_other (g : Grid) (row col : Nat) (v : Int) (r c : Nat)
    (h : r ≠ row ∨ c ≠ col) : setCell g row col v r c = g r c := by
  unfold setCell
  rw [if_neg]
  rintro ⟨h1, h2⟩
  rcases h with h | h
  · exact h h1
  · exact h h2

/-- Restoring the value a cell held undoes a temporary write to it. -/
theorem setCell_restore (g : Grid) (row col : Nat) (v : Int) :
    setCell (setCell g row col v) row col (g row col) = g := by
  funext r c
  unfold setCell
  by_cases h : r = row ∧ c = col
  · rw [if_pos h, h.1, h.2]
  · rw [if_neg h, if_neg h]

/-- What the scan of `isValidEntry` decides: the value is accepted exactly when no cell of
the row, the column or the box (the target cell included) holds it. -/
theorem isValidEntry_iff (g : Grid) (row col : Nat) (value : Int)
    (hr : row < gridSize) (hc : col < gridSize) :
    isValidEntry g row col value = true ↔
      ∀ r < gridSize, ∀ c < gridSize, sees row col r c → g r c ≠ value := by
  unfold gridSize at *
  constructor
  · intro h r hr2 c hc2 hs
    unfold isValidEntry at h
    unfold gridSize at h
    split at h
    · exact absurd h (by simp)
    · rename_i h1
      dsimp only at h
      split at h
      · exact absurd h (by simp)
      · rename_i h2
        simp only [List.any_eq_true, List.mem_range, Bool.or_eq_true, beq_iff_eq, not_exists,
          not_and, not_or] at h1 h2
        rcases hs with hs | hs | ⟨hs1, hs2⟩
        · subst hs; exact (h1 c hc2).1
        · subst hs; exact (h1 r hr2).2
        · have := h2 (r - row / 3 * 3) (by omega) (c - col / 3 * 3) (by omega)
          have e1 : row / 3 * 3 + (r - row / 3 * 3) = r := by omega
          have e2 : col / 3 * 3 + (c - col / 3 * 3) = c := by omega
          rw [e1, e2] at this
          exact this
  · intro h
    unfold isValidEntry
    unfold gridSize
    have h1 : ¬ ((List.range 9).any (fun i => g row i == value || g i col == value) = true) := by
      simp only [List.any_eq_true, List.mem_range, Bool.or_eq_true, beq_iff_eq, not_exists,
        not_and, not_or]
      intro i hi
      exact ⟨h row hr i hi (Or.inl rfl), h i hi col hc (Or.inr (Or.inl rfl))⟩
    have h2 : ¬ ((List.range 3).any (fun i => (List.range 3).any (fun j =>
        g (row / 3 * 3 + i) (col / 3 * 3 + j) == value)) = true) := by
      simp only [List.any_eq_true, List.mem_range, beq_iff_eq, not_exists, not_and]
      intro i hi j hj
      exact h _ (by omega) _ (by omega) (Or.inr (Or.inr ⟨by omega, by omega⟩))
    rw [if_neg h1]
    simp only []
    rw [if_neg h2]

/-! ## Units: "each of 1..9 exactly once" against "in range and pairwise distinct" -/

theorem digits_nodup : digits.Nodup := by decide

theorem mem_digits_iff (x : Int) : x ∈ digits ↔ 1 ≤ x ∧ x ≤ 9 := by
  simp only [digits, List.mem_cons, List.mem_singleton, List.not_mem_nil, or_false]
  omega

/-- A list of nine values has each digit exactly once iff it is a rearrangement of 1..9. -/
theorem count_one_iff_perm (l : List Int) (hlen : l.length = 9) :
    (∀ v ∈ digits, l.count v = 1) ↔ l.Perm digits := by
  constructor
  · intro h
    have hsub : digits ⊆ l := by
      intro v hv
      have := h v hv
      exact List.count_pos_iff.mp (by omega)
    have hsp : List.Subperm digits l := List.subperm_of_subset digits_nodup hsub
    exact (hsp.perm_of_length_le (by rw [hlen]; decide)).symm
  · intro h v hv
    rw [h.count_eq]
    exact List.count_eq_one_of_mem digits_nodup hv

/-- A list of nine values is a rearrangement of 1..9 iff its entries are digits and
pairwise distinct. -/
theorem perm_digits_iff (l : List Int) (hlen : l.length = 9) :
    l.Perm digits ↔ (∀ x ∈ l, 1 ≤ x ∧ x ≤ 9) ∧ l.Nodup := by
  constructor
  · intro h
    refine ⟨fun x hx => (mem_digits_iff x).mp (h.mem_iff.mp hx), h.nodup_iff.mpr digits_nodup⟩
  · rintro ⟨hr, hn⟩
    have hsub : l ⊆ digits := fun x hx => (mem_digits_iff x).mpr (hr x hx)
    have hsp : List.Subperm l digits := List.subperm_of_subset hn hsub
    exact hsp.perm_of_length_le (by rw [hlen]; decide)

/-- A unit enumerated by `cell 0, ..., cell 8` (pairwise distinct cells) contains each digit
exactly once iff its nine values are digits and pairwise distinct. -/
theorem exactlyOnce_iff (g : Grid) (cell : Nat → Nat × Nat) :
    exactlyOnce g ((List.range gridSize).map cell) ↔
      (∀ k < gridSize, 1 ≤ g (cell k).1 (cell k).2 ∧ g (cell k).1 (cell k).2 ≤ 9) ∧
      (∀ k1 < gridSize, ∀ k2 < gridSize,
        g (cell k1).1 (cell k1).2 = g (cell k2).1 (cell k2).2 → k1 = k2) := by
  have hcount : ∀ v : Int, ((List.range gridSize).map cell).countP (fun p => g p.1 p.2 == v)
      = ((List.range gridSize).map (fun k => g (cell k).1 (cell k).2)).count v := by
    intro v
    rw [List.count, List.countP_map, List.countP_map]
    rfl
  have hlen : ((List.range gridSize).map (fun k => g (cell k).1 (cell k).2)).length = 9 := by
    simp [gridSize]
  unfold exactlyOnce
  simp only [hcount]
  rw [count_one_iff_perm _ hlen, perm_digits_iff _ hlen,
    List.nodup_map_iff_inj_on (List.nodup_range _)]
  simp only [List.mem_map, List.mem_range, forall_exists_index, and_imp,
    forall_apply_eq_imp_iff₂]

theorem validFull_allDigits (g : Grid) (h : validFull g) : allDigits g := by
  intro r hr c hc
  have := ((exactlyOnce_iff g (fun c => (r, c))).mp (h r hr).1).1 c hc
  exact this

theorem validFull_noConflict (g : Grid) (h : validFull g) : noConflict g := by
  intro r hr c hc r2 hr2 c2 hc2 hne hs heq
  unfold gridSize at *
  rcases hs with hs | hs | ⟨hs1, hs2⟩
  · subst hs
    have := ((exactlyOnce_iff g (fun c => (r2, c))).mp (h r2 hr).1).2 c2 hc2 c hc heq
    omega
  · subst hs
    have := ((exactlyOnce_iff g (fun r => (r, c2))).mp (h c2 hc).2.1).2 r2 hr2 r hr heq
    omega
  · have hb : r / 3 * 3 + c / 3 < gridSize := by unfold gridSize; omega
    have hinj := ((exactlyOnce_iff g (fun k => ((r / 3 * 3 + c / 3) / 3 * 3 + k / 3,
        (r / 3 * 3 + c / 3) % 3 * 3 + k % 3))).mp (h _ hb).2.2).2
      (r2 % 3 * 3 + c2 % 3) (by unfold gridSize; omega)
      (r % 3 * 3 + c % 3) (by unfold gridSize; omega)
    have e1 : (r / 3 * 3 + c / 3) / 3 * 3 + (r2 % 3 * 3 + c2 % 3) / 3 = r2 := by omega
    have e2 : (r / 3 * 3 + c / 3) % 3 * 3 + (r2 % 3 * 3 + c2 % 3) % 3 = c2 := by omega
    have e3 : (r / 3 * 3 + c / 3) / 3 * 3 + (r % 3 * 3 + c % 3) / 3 = r := by omega
    have e4 : (r / 3 * 3 + c / 3) % 3 * 3 + (r % 3 * 3 + c % 3) % 3 = c := by omega
    simp only [e1, e2, e3, e4] at hinj
    have := hinj heq
    omega

theorem validFull_of_noConflict (g : Grid) (hd : allDigits g) (hn : noConflict g) :
    validFull g := by
  intro u hu
  refine ⟨?_, ?_, ?_⟩
  · refine (exactlyOnce_iff g (fun c => (u, c))).mpr ⟨fun k hk => hd u hu k hk, ?_⟩
    intro k1 hk1 k2 hk2 heq
    by_contra hne
    exact hn u hu k2 hk2 u hu k1 hk1 (Or.inr hne) (Or.inl rfl) heq
  · refine (exactlyOnce_iff g (fun r => (r, u))).mpr ⟨fun k hk => hd k hk u hu, ?_⟩
    intro k1 hk1 k2 hk2 heq
    by_contra hne
    exact hn k2 hk2 u hu k1 hk1 u hu (Or.inl hne) (Or.inr (Or.inl rfl)) heq
  · unfold gridSize at hu
    refine (exactlyOnce_iff g (fun k => (u / 3 * 3 + k / 3, u % 3 * 3 + k % 3))).mpr
      ⟨fun k hk => hd _ (by unfold gridSize at *; omega) _ (by unfold gridSize at *; omega), ?_⟩
    intro k1 hk1 k2 hk2 heq
    by_contra hne
    unfold gridSize at hk1 hk2
    exact hn _ (by unfold gridSize; omega) _ (by unfold gridSize; omega)
      _ (by unfold gridSize; omega) _ (by unfold gridSize; omega)
      (by dsimp only; omega) (Or.inr (Or.inr ⟨by dsimp only; omega, by dsimp only; omega⟩)) heq

/-- On a board with entries in 0..9, "no empty cell and no conflict" is the same as "each of
1..9 exactly once in every row, column and box". -/
theorem validFull_iff (g : Grid) (hr : entriesInRange g) :
    validFull g ↔ noEmpty g ∧ noConflict g := by
  constructor
  · intro h
    refine ⟨fun r hr c hc h0 => ?_, validFull_noConflict g h⟩
    have := validFull_allDigits g h r hr c hc
    omega
  · rintro ⟨he, hn⟩
    refine validFull_of_noConflict g (fun r hr2 c hc => ?_) hn
    have h1 := hr r hr2 c hc
    have h2 := he r hr2 c hc
    omega

/-! ## The completion checker -/

/-- The clear-and-restore pair of `isPuzzleSolved` leaves the globals as they were. -/
theorem clear_restore (s : State) (row col : Nat) :
    ({ ({ s with sudokuGrid := setCell s.sudokuGrid row col 0 } : State) with
        sudokuGrid := setCell (setCell s.sudokuGrid row col 0) row col (s.sudokuGrid row col) }
      : State) = s := by
  cases s
  simp only [setCell_restore]

/-- The per-cell test of `isPuzzleSolved` on a non-empty cell: with the cell cleared, its
value is accepted iff no other cell of its row, column or box holds it. -/
theorem cleared_valid_iff (g : Grid) (row col : Nat) (hr : row < gridSize)
    (hc : col < gridSize) (h0 : g row col ≠ 0) :
    isValidEntry (setCell g row col 0) row col (g row col) = true ↔ noConflictAt g row col := by
  rw [isValidEntry_iff _ _ _ _ hr hc]
  constructor
  · intro h r2 hr2 c2 hc2 hne hs
    have := h r2 hr2 c2 hc2 hs
    rwa [setCell_other _ _ _ _ _ _ hne] at this
  · intro h r2 hr2 c2 hc2 hs
    by_cases hne : r2 ≠ row ∨ c2 ≠ col
    · rw [setCell_other _ _ _ _ _ _ hne]
      exact h r2 hr2 c2 hc2 hne hs
    · have h1 : r2 = row := by by_contra hx; exact hne (Or.inl hx)
      have h2 : c2 = col := by by_contra hx; exact hne (Or.inr hx)
      rw [h1, h2, setCell_same]
      exact fun hx => h0 hx.symm

theorem isPuzzleSolvedCols_spec (row : Nat) (hr : row < gridSize) (cols : List Nat)
    (hcols : ∀ col ∈ cols, col < gridSize) (s : State) :
    (isPuzzleSolvedCols row cols s).2 = s ∧
    ((isPuzzleSolvedCols row cols s).1 = true ↔
      ∀ col ∈ cols, s.sudokuGrid row col ≠ 0 ∧ noConflictAt s.sudokuGrid row col) := by
  induction cols with
  | nil => simp [isPuzzleSolvedCols]
  | cons col cols ih =>
    have hc : col < gridSize := hcols col (List.mem_cons_self _ _)
    have ih2 := ih (fun c hcm => hcols c (List.mem_cons_of_mem _ hcm))
    unfold isPuzzleSolvedCols
    dsimp only
    by_cases h0 : s.sudokuGrid row col = 0
    · rw [if_pos h0]
      refine ⟨rfl, ?_⟩
      simp only [List.mem_cons, forall_eq_or_imp]
      constructor
      · intro h; exact absurd h (by simp)
      · intro h; exact absurd h0 h.1.1
    · rw [if_neg h0, clear_restore]
      have hv := cleared_valid_iff s.sudokuGrid row col hr hc h0
      by_cases hval : isValidEntry (setCell s.sudokuGrid row col 0) row col
          (s.sudokuGrid row col) = true
      · rw [hval]
        simp only [Bool.not_true, Bool.false_eq_true, if_false]
        refine ⟨ih2.1, ?_⟩
        rw [ih2.2]
        simp only [List.mem_cons, forall_eq_or_imp]
        constructor
        · intro h; exact ⟨⟨h0, hv.mp hval⟩, h⟩
        · intro h; exact h.2
      · have hval2 : isValidEntry (setCell s.sudokuGrid row col 0) row col
            (s.sudokuGrid row col) = false := by
          cases hx : isValidEntry (setCell s.sudokuGrid row col 0) row col (s.sudokuGrid row col)
          · rfl
          · exact absurd hx hval
        rw [hval2]
        simp only [Bool.not_false, if_true]
        refine ⟨trivial, ?_⟩
        simp only [List.mem_cons, forall_eq_or_imp]
        constructor
        · intro h; exact absurd h (by simp)
        · intro h; exact absurd (hv.mpr h.1.2) hval

theorem isPuzzleSolvedRows_spec (rows : List Nat) (hrows : ∀ row ∈ rows, row < gridSize)
    (s : State) :
    (isPuzzleSolvedRows rows s).2 = s ∧
    ((isPuzzleSolvedRows rows s).1 = true ↔
      ∀ row ∈ rows, ∀ col < gridSize,
        s.sudokuGrid row col ≠ 0 ∧ noConflictAt s.sudokuGrid row col) := by
  induction rows with
  | nil => simp [isPuzzleSolvedRows]
  | cons row rows ih =>
    have hr : row < gridSize := hrows row (List.mem_cons_self _ _)
    have ih2 := ih (fun r hrm => hrows r (List.mem_cons_of_mem _ hrm))
    have hcol := isPuzzleSolvedCols_spec row hr (List.range gridSize)
      (fun c hc => List.mem_range.mp hc) s
    unfold isPuzzleSolvedRows
    rcases hres : isPuzzleSolvedCols row (List.range gridSize) s with ⟨b, s1⟩
    rw [hres] at hcol
    dsimp only at hcol
    obtain ⟨hs1, hb⟩ := hcol
    subst hs1
    simp only [List.mem_cons, forall_eq_or_imp, List.mem_range] at hb ⊢
    cases b
    · dsimp only
      refine ⟨rfl, ?_⟩
      constructor
      · intro h; exact absurd h (by simp)
      · intro h; exact absurd (hb.mpr h.1) (by simp)
    · dsimp only
      refine ⟨ih2.1, ?_⟩
      rw [ih2.2]
      constructor
      · intro h; exact ⟨hb.mp rfl, h⟩
      · intro h; exact h.2

/-- Result and frame of `isPuzzleSolved`. -/
theorem isPuzzleSolved_spec (s : State) :
    (isPuzzleSolved s).2 = s ∧
    ((isPuzzleSolved s).1 = true ↔ noEmpty s.sudokuGrid ∧ noConflict s.sudokuGrid) := by
  have h := isPuzzleSolvedRows_spec (List.range gridSize) (fun r hr => List.mem_range.mp hr) s
  refine ⟨h.1, ?_⟩
  unfold isPuzzleSolved
  rw [h.2]
  simp only [List.mem_range]
  constructor
  · intro hx
    exact ⟨fun r hr c hc => (hx r hr c hc).1, fun r hr c hc => (hx r hr c hc).2⟩
  · intro hx r hr c hc
    exact ⟨hx.1 r hr c hc, hx.2 r hr c hc⟩

/-! ## The solver: frame and atomic failure -/

/-- Placing a candidate in an empty cell and clearing it again restores the globals. -/
theorem place_clear (s : State) (row col : Nat) (num : Int) (h0 : s.sudokuGrid row col = 0) :
    ({ ({ s with sudokuGrid := setCell s.sudokuGrid row col num } : State) with
        sudokuGrid := setCell (setCell s.sudokuGrid row col num) row col 0 } : State) = s := by
  have h := setCell_restore s.sudokuGrid row col num
  rw [h0] at h
  cases s
  simp only at h ⊢
  rw [h]

theorem solveFrame_refl (s : State) (b : Bool) : SolveFrame s b s :=
  ⟨rfl, rfl, rfl, rfl, rfl, fun _ _ _ => rfl, fun _ => rfl⟩

theorem tryCandidates_frame (k : State → Option (Bool × State)) (row col : Nat)
    (hk : ∀ s1 b s2, k s1 = some (b, s2) → SolveFrame s1 b s2)
    (s : State) (h0 : s.sudokuGrid row col = 0) (nums : List Int) (b : Bool) (s' : State)
    (h : tryCandidates k row col nums s = some (b, s')) : SolveFrame s b s' := by
  induction nums with
  | nil =>
    simp only [tryCandidates, Option.some.injEq, Prod.mk.injEq] at h
    rw [← h.2]
    exact solveFrame_refl s b
  | cons num nums ih =>
    unfold tryCandidates at h
    by_cases hv : isValidEntry s.sudokuGrid row col num = true
    · rw [if_pos hv] at h
      rcases hres : k { s with sudokuGrid := setCell s.sudokuGrid row col num } with _ | ⟨b1, s1⟩
      · rw [hres] at h
        exact absurd h (by simp)
      · rw [hres] at h
        have hf := hk _ _ _ hres
        cases b1
        · dsimp only at h
          have hs1 := hf.2.2.2.2.2.2 rfl
          subst hs1
          dsimp only at h
          rw [place_clear s row col num h0] at h
          exact ih h
        · dsimp only at h
          simp only [Option.some.injEq, Prod.mk.injEq] at h
          obtain ⟨hb, hs⟩ := h
          subst hb; subst hs
          obtain ⟨h1, h2, h3, h4, h5, h6, _⟩ := hf
          refine ⟨h1, h2, h3, h4, h5, ?_, fun hx => absurd hx (by simp)⟩
          intro r c hne
          have hrc : r ≠ row ∨ c ≠ col := by
            by_contra hx
            have e1 : r = row := by by_contra hy; exact hx (Or.inl hy)
            have e2 : c = col := by by_contra hy; exact hx (Or.inr hy)
            rw [e1, e2] at hne
            exact hne h0
          have e : setCell s.sudokuGrid row col num r c = s.sudokuGrid r c :=
            setCell_other _ _ _ _ _ _ hrc
          have := h6 r c (by dsimp only; rw [e]; exact hne)
          rw [this]
          exact e
    · rw [if_neg hv] at h
      exact ih h

/-- Every call of `solve` that returns leaves the masks, the selection and every non-empty
cell untouched, and leaves the whole state untouched when it returns false. -/
theorem solve_frame (depth row col : Nat) (s : State) (b : Bool) (s' : State)
    (h : solve depth row col s = some (b, s')) : SolveFrame s b s' := by
  induction depth generalizing row col s b s' with
  | zero => simp [solve] at h
  | succ depth ih =>
    unfold solve at h
    by_cases hrow : row = gridSize
    · rw [if_pos hrow] at h
      simp only [Option.some.injEq, Prod.mk.injEq] at h
      rw [← h.2]
      exact solveFrame_refl s b
    · rw [if_neg hrow] at h
      dsimp only at h
      by_cases h0 : s.sudokuGrid row col ≠ 0
      · rw [if_pos h0] at h
        exact ih _ _ _ _ _ h
      · rw [if_neg h0] at h
        exact tryCandidates_frame _ row col (fun s1 b1 s2 hx => ih _ _ _ _ _ hx) s
          (by simpa using h0) _ b s' h

/-! ## Conflict-free fillings along the row-major scan -/

theorem sees_symm {r c r' c' : Nat} (h : sees r c r' c') : sees r' c' r c := by
  unfold sees at *
  rcases h with h | h | ⟨h1, h2⟩
  · exact Or.inl h.symm
  · exact Or.inr (Or.inl h.symm)
  · exact Or.inr (Or.inr ⟨h1.symm, h2.symm⟩)

theorem cell_ne_iff (r c row col : Nat) : (r ≠ row ∨ c ≠ col) ↔ ¬ (r = row ∧ c = col) := by
  constructor
  · rintro (h | h) ⟨h1, h2⟩
    · exact h h1
    · exact h h2
  · intro h
    by_cases h1 : r = row
    · exact Or.inr (fun h2 => h ⟨h1, h2⟩)
    · exact Or.inl h1

/-- A filling that starts after a non-empty cell is a filling that starts at it. -/
theorem fills_skip (g f : Grid) (row col : Nat) (hcol : col < gridSize)
    (hne : g row col ≠ 0)
    (hf : FillsFrom g f (row * gridSize + col + 1)) : FillsFrom g f (row * gridSize + col) := by
  intro r hr c hc
  obtain ⟨h1, h2⟩ := hf r hr c hc
  refine ⟨fun h => h1 (by omega), fun h => h2 ⟨h.1, ?_⟩⟩
  by_cases hcell : r = row ∧ c = col
  · rw [hcell.1, hcell.2] at h
    exact absurd h.1 hne
  · have := (cell_ne_iff r c row col).mpr hcell
    unfold gridSize at *
    omega

/-- A filling that starts at a non-empty cell is a filling that starts after it. -/
theorem fills_skip_conv (g f : Grid) (row col : Nat) (hcol : col < gridSize)
    (hne : g row col ≠ 0)
    (hf : FillsFrom g f (row * gridSize + col)) : FillsFrom g f (row * gridSize + col + 1) := by
  intro r hr c hc
  obtain ⟨h1, h2⟩ := hf r hr c hc
  refine ⟨fun h => h1 ?_, fun h => h2 ⟨h.1, by omega⟩⟩
  by_cases hcell : r = row ∧ c = col
  · rw [hcell.1, hcell.2]
    exact Or.inl hne
  · have := (cell_ne_iff r c row col).mpr hcell
    rcases h with h | h
    · exact Or.inl h
    · right
      unfold gridSize at *
      omega

/-- Filling after a valid placement at an empty cell gives a filling from that cell. -/
theorem fills_place (g f : Grid) (row col : Nat) (hrow : row < gridSize)
    (hcol : col < gridSize) (num : Int) (hnum : 1 ≤ num ∧ num ≤ 9) (h0 : g row col = 0)
    (hv : isValidEntry g row col num = true)
    (hf : FillsFrom (setCell g row col num) f (row * gridSize + col + 1)) :
    FillsFrom g f (row * gridSize + col) := by
  have hfr : f row col = num := by
    have := (hf row hrow col hcol).1 (Or.inl (by rw [setCell_same]; omega))
    rw [this, setCell_same]
  intro r hr c hc
  by_cases hcell : r = row ∧ c = col
  · obtain ⟨e1, e2⟩ := hcell
    subst e1; subst e2
    refine ⟨fun h => ?_, fun _ => ⟨by rw [hfr]; exact hnum, ?_⟩⟩
    · rcases h with h | h
      · exact absurd h0 h
      · omega
    · intro r2 hr2 c2 hc2 hne hs
      rw [hfr]
      obtain ⟨h1, h2⟩ := hf r2 hr2 c2 hc2
      have e : setCell g r c num r2 c2 = g r2 c2 := setCell_other _ _ _ _ _ _ hne
      rw [e] at h1 h2
      by_cases hg : g r2 c2 ≠ 0 ∨ r2 * gridSize + c2 < r * gridSize + c + 1
      · rw [h1 hg]
        exact (isValidEntry_iff g r c num hrow hcol).mp hv r2 hr2 c2 hc2 hs
      · have hg0 : g r2 c2 = 0 := by
          by_contra hx; exact hg (Or.inl hx)
        have hpos : r * gridSize + c + 1 ≤ r2 * gridSize + c2 := by
          by_contra hx; exact hg (Or.inr (by omega))
        have hnc := (h2 ⟨hg0, hpos⟩).2 r hrow c hcol
          (by rcases hne with h | h
              · exact Or.inl (fun hx => h hx.symm)
              · exact Or.inr (fun hx => h hx.symm)) (sees_symm hs)
        rw [hfr] at hnc
        exact fun hx => hnc hx.symm
  · have hne := (cell_ne_iff r c row col).mpr hcell
    obtain ⟨h1, h2⟩ := hf r hr c hc
    have e : setCell g row col num r c = g r c := setCell_other _ _ _ _ _ _ hne
    rw [e] at h1 h2
    refine ⟨fun h => h1 (by omega), fun h => h2 ⟨h.1, ?_⟩⟩
    unfold gridSize at *
    omega

/-- A filling from an empty cell places there a digit that the checker accepts, and is a
filling after that placement. -/
theorem fills_place_conv (g f : Grid) (row col : Nat) (hrow : row < gridSize)
    (hcol : col < gridSize) (h0 : g row col = 0)
    (hf : FillsFrom g f (row * gridSize + col)) :
    (1 ≤ f row col ∧ f row col ≤ 9) ∧ isValidEntry g row col (f row col) = true ∧
      FillsFrom (setCell g row col (f row col)) f (row * gridSize + col + 1) := by
  obtain ⟨hrange, hnc⟩ := (hf row hrow col hcol).2 ⟨h0, le_refl _⟩
  refine ⟨hrange, ?_, ?_⟩
  · rw [isValidEntry_iff g row col _ hrow hcol]
    intro r hr c hc hs
    by_cases hcell : r = row ∧ c = col
    · rw [hcell.1, hcell.2, h0]
      omega
    · have hne := (cell_ne_iff r c row col).mpr hcell
      by_cases hg : g r c = 0
      · rw [hg]; omega
      · rw [← (hf r hr c hc).1 (Or.inl hg)]
        exact hnc r hr c hc hne hs
  · intro r hr c hc
    by_cases hcell : r = row ∧ c = col
    · rw [hcell.1, hcell.2, setCell_same]
      exact ⟨fun _ => rfl, fun h => absurd h.1 (by omega)⟩
    · have hne := (cell_ne_iff r c row col).mpr hcell
      rw [setCell_other _ _ _ _ _ _ hne]
      obtain ⟨h1, h2⟩ := hf r hr c hc
      refine ⟨fun h => h1 ?_, fun h => h2 ⟨h.1, by omega⟩⟩
      rcases h with h | h
      · exact Or.inl h
      · right
        unfold gridSize at *
        omega

/-! ## The solver: termination, soundness, completeness -/

theorem mem_candidates_iff (n : Int) : n ∈ candidates ↔ 1 ≤ n ∧ n ≤ 9 := by
  unfold candidates gridSize
  simp only [List.mem_map, List.mem_range]
  constructor
  · rintro ⟨i, hi, rfl⟩
    omega
  · intro h
    exact ⟨(n - 1).toNat, by omega, by omega⟩

/-- The successor cell computed by `solve` is the next row-major position. -/
theorem next_pos (row col : Nat) (hcol : col < gridSize) :
    (if col = gridSize - 1 then row + 1 else row) * gridSize
        + (if col = gridSize - 1 then 0 else col + 1) = row * gridSize + col + 1 ∧
      (if col = gridSize - 1 then 0 else col + 1) < gridSize := by
  unfold gridSize at *
  by_cases h : col = 9 - 1
  · rw [if_pos h, if_pos h]; omega
  · rw [if_neg h, if_neg h]; omega

theorem tryCandidates_terminates (k : State → Option (Bool × State)) (row col : Nat)
    (hk : ∀ s1, ∃ r, k s1 = some r) (nums : List Int) (s : State) :
    ∃ r, tryCandidates k row col nums s = some r := by
  induction nums generalizing s with
  | nil => exact ⟨_, rfl⟩
  | cons num nums ih =>
    unfold tryCandidates
    by_cases hv : isValidEntry s.sudokuGrid row col num = true
    · rw [if_pos hv]
      obtain ⟨⟨b1, s1⟩, hres⟩ := hk { s with sudokuGrid := setCell s.sudokuGrid row col num }
      rw [hres]
      cases b1
      · exact ih _
      · exact ⟨_, rfl⟩
    · rw [if_neg hv]
      exact ih _

/-- The search returns whenever the call-depth budget covers the cells still to visit. -/
theorem solve_terminates (depth row col : Nat) (s : State) (hcol : col < gridSize)
    (hpos : row * gridSize + col ≤ gridSize * gridSize)
    (hd : solveDepth ≤ depth + (row * gridSize + col)) :
    ∃ r, solve depth row col s = some r := by
  induction depth generalizing row col s with
  | zero => unfold solveDepth at hd; omega
  | succ depth ih =>
    unfold solve
    by_cases hrow : row = gridSize
    · rw [if_pos hrow]; exact ⟨_, rfl⟩
    · rw [if_neg hrow]
      dsimp only
      obtain ⟨hp, hnc⟩ := next_pos row col hcol
      have hlt : row * gridSize + col + 1 ≤ gridSize * gridSize := by
        unfold gridSize at *; omega
      have ih2 := fun s1 => ih _ _ s1 hnc (by rw [hp]; exact hlt) (by rw [hp]; omega)
      by_cases h0 : s.sudokuGrid row col ≠ 0
      · rw [if_pos h0]; exact ih2 s
      · rw [if_neg h0]
        exact tryCandidates_terminates _ row col ih2 _ s

theorem fills_end (g : Grid) (p : Nat) (hp : gridSize * gridSize ≤ p) : FillsFrom g g p := by
  intro r hr c hc
  refine ⟨fun _ => rfl, fun h => ?_⟩
  unfold gridSize at *
  omega

theorem tryCandidates_sound (k : State → Option (Bool × State)) (row col : Nat)
    (hrow : row < gridSize) (hcol : col < gridSize)
    (hkf : ∀ s1 b s2, k s1 = some (b, s2) → SolveFrame s1 b s2)
    (hk : ∀ s1 s2, k s1 = some (true, s2) →
      FillsFrom s1.sudokuGrid s2.sudokuGrid (row * gridSize + col + 1))
    (s : State) (h0 : s.sudokuGrid row col = 0) (nums : List Int)
    (hnums : ∀ n ∈ nums, 1 ≤ n ∧ n ≤ 9) (s' : State)
    (h : tryCandidates k row col nums s = some (true, s')) :
    FillsFrom s.sudokuGrid s'.sudokuGrid (row * gridSize + col) := by
  induction nums with
  | nil => simp [tryCandidates] at h
  | cons num nums ih =>
    have ih2 := ih (fun n hn => hnums n (List.mem_cons_of_mem _ hn))
    unfold tryCandidates at h
    by_cases hv : isValidEntry s.sudokuGrid row col num = true
    · rw [if_pos hv] at h
      rcases hres : k { s with sudokuGrid := setCell s.sudokuGrid row col num } with _ | ⟨b1, s1⟩
      · rw [hres] at h
        exact absurd h (by simp)
      · rw [hres] at h
        cases b1
        · have hs1 := (hkf _ _ _ hres).2.2.2.2.2.2 rfl
          subst hs1
          dsimp only at h
          rw [place_clear s row col num h0] at h
          exact ih2 h
        · dsimp only at h
          simp only [Option.some.injEq, Prod.mk.injEq, true_and] at h
          subst h
          exact fills_place _ _ row col hrow hcol num (hnums num (List.mem_cons_self _ _)) h0 hv
            (hk _ _ hres)
    · rw [if_neg hv] at h
      exact ih2 h

/-- When the search returns true, the board it leaves is a conflict-free filling of the
board it started from. -/
theorem solve_sound (depth row col : Nat) (s s' : State) (hcol : col < gridSize)
    (hpos : row * gridSize + col ≤ gridSize * gridSize)
    (h : solve depth row col s = some (true, s')) :
    FillsFrom s.sudokuGrid s'.sudokuGrid (row * gridSize + col) := by
  induction depth generalizing row col s s' with
  | zero => simp [solve] at h
  | succ depth ih =>
    unfold solve at h
    by_cases hrow : row = gridSize
    · rw [if_pos hrow] at h
      simp only [Option.some.injEq, Prod.mk.injEq, true_and] at h
      subst h
      exact fills_end _ _ (by rw [hrow]; omega)
    · rw [if_neg hrow] at h
      dsimp only at h
      obtain ⟨hp, hnc⟩ := next_pos row col hcol
      have hrow2 : row < gridSize := by unfold gridSize at *; omega
      have hlt : row * gridSize + col + 1 ≤ gridSize * gridSize := by
        unfold gridSize at *; omega
      have ih2 := fun s1 s2 hx => ih _ _ s1 s2 hnc (by rw [hp]; exact hlt) hx
      rw [hp] at ih2
      by_cases h0 : s.sudokuGrid row col ≠ 0
      · rw [if_pos h0] at h
        exact fills_skip _ _ row col hcol h0 (ih2 _ _ h)
      · rw [if_neg h0] at h
        exact tryCandidates_sound _ row col hrow2 hcol
          (fun s1 b s2 hx => solve_frame _ _ _ _ _ _ hx) ih2 s (by simpa using h0) _
          (fun n hn => (mem_candidates_iff n).mp hn) s' h

theorem tryCandidates_complete (k : State → Option (Bool × State)) (row col : Nat)
    (hrow : row < gridSize) (hcol : col < gridSize)
    (hkt : ∀ s1, ∃ r, k s1 = some r)
    (hkf : ∀ s1 b s2, k s1 = some (b, s2) → SolveFrame s1 b s2)
    (hk : ∀ s1, (∃ f, FillsFrom s1.sudokuGrid f (row * gridSize + col + 1)) →
      ∃ s2, k s1 = some (true, s2))
    (s : State) (h0 : s.sudokuGrid row col = 0) (f : Grid)
    (hf : FillsFrom s.sudokuGrid f (row * gridSize + col)) (nums : List Int)
    (hmem : f row col ∈ nums) :
    ∃ s', tryCandidates k row col nums s = some (true, s') := by
  obtain ⟨_, hvf, hff⟩ := fills_place_conv s.sudokuGrid f row col hrow hcol h0 hf
  induction nums with
  | nil => exact absurd hmem (List.not_mem_nil _)
  | cons num nums ih =>
    unfold tryCandidates
    by_cases hv : isValidEntry s.sudokuGrid row col num = true
    · rw [if_pos hv]
      obtain ⟨⟨b1, s1⟩, hres⟩ := hkt { s with sudokuGrid := setCell s.sudokuGrid row col num }
      rw [hres]
      cases b1
      · have hs1 := (hkf _ _ _ hres).2.2.2.2.2.2 rfl
        subst hs1
        dsimp only
        rw [place_clear s row col num h0]
        apply ih
        rcases List.mem_cons.mp hmem with hx | hx
        · exfalso
          obtain ⟨s2, hs2⟩ := hk { s with sudokuGrid := setCell s.sudokuGrid row col num }
            ⟨f, by rw [← hx]; exact hff⟩
          rw [hres] at hs2
          simp at hs2
        · exact hx
      · exact ⟨_, rfl⟩
    · rw [if_neg hv]
      apply ih
      rcases List.mem_cons.mp hmem with hx | hx
      · rw [hx] at hvf
        exact absurd hvf hv
      · exact hx

/-- Whenever a conflict-free filling exists, the search returns true. -/
theorem solve_complete (depth row col : Nat) (s : State) (hcol : col < gridSize)
    (hpos : row * gridSize + col ≤ gridSize * gridSize)
    (hd : solveDepth ≤ depth + (row * gridSize + col))
    (f : Grid) (hf : FillsFrom s.sudokuGrid f (row * gridSize + col)) :
    ∃ s', solve depth row col s = some (true, s') := by
  induction depth generalizing row col s f with
  | zero => unfold solveDepth at hd; omega
  | succ depth ih =>
    unfold solve
    by_cases hrow : row = gridSize
    · rw [if_pos hrow]; exact ⟨_, rfl⟩
    · rw [if_neg hrow]
      dsimp only
      obtain ⟨hp, hnc⟩ := next_pos row col hcol
      have hrow2 : row < gridSize := by unfold gridSize at *; omega
      have hlt : row * gridSize + col + 1 ≤ gridSize * gridSize := by
        unfold gridSize at *; omega
      have ih2 := fun s1 => ih _ _ s1 hnc (by rw [hp]; exact hlt) (by rw [hp]; omega)
      rw [hp] at ih2
      by_cases h0 : s.sudokuGrid row col ≠ 0
      · rw [if_pos h0]
        exact ih2 s f (fills_skip_conv _ _ row col hcol h0 hf)
      · rw [if_neg h0]
        have h00 : s.sudokuGrid row col = 0 := by simpa using h0
        exact tryCandidates_complete _ row col hrow2 hcol
          (fun s1 => solve_terminates _ _ _ s1 hnc (by rw [hp]; exact hlt) (by rw [hp]; omega))
          (fun s1 b s2 hx => solve_frame _ _ _ _ _ _ hx)
          (fun s1 ⟨f1, hf1⟩ => ih2 s1 f1 hf1) s h00 f hf _
          ((mem_candidates_iff _).mpr
            (fills_place_conv s.sudokuGrid f row col hrow2 hcol h00 hf).1)

/-! ## Fillings and valid completions -/

theorem completion_fills (g h : Grid) (hc : isCompletion g h) : FillsFrom g h 0 := by
  obtain ⟨hv, ha⟩ := hc
  intro r hr c hc
  refine ⟨fun hx => ?_, fun _ => ⟨validFull_allDigits h hv r hr c hc,
    validFull_noConflict h hv r hr c hc⟩⟩
  rcases hx with hx | hx
  · exact ha r hr c hc hx
  · omega

theorem fills_noEmpty (g f : Grid) (hf : FillsFrom g f 0) : noEmpty f := by
  intro r hr c hc
  obtain ⟨h1, h2⟩ := hf r hr c hc
  by_cases h0 : g r c = 0
  · have := (h2 ⟨h0, Nat.zero_le _⟩).1
    omega
  · rw [h1 (Or.inl h0)]
    exact h0

/-- In a filling, a conflict can only be between two cells that were both non-empty at the
start. -/
theorem fills_noConflictAt (g f : Grid) (hf : FillsFrom g f 0) (r c : Nat)
    (hr : r < gridSize) (hc : c < gridSize) (hg : g r c ≠ 0 → noConflictAt g r c) :
    noConflictAt f r c := by
  by_cases h0 : g r c = 0
  · exact ((hf r hr c hc).2 ⟨h0, Nat.zero_le _⟩).2
  · intro r2 hr2 c2 hc2 hne hs
    by_cases h2 : g r2 c2 = 0
    · have := ((hf r2 hr2 c2 hc2).2 ⟨h2, Nat.zero_le _⟩).2 r hr c hc
        (by rcases hne with h | h
            · exact Or.inl (fun hx => h hx.symm)
            · exact Or.inr (fun hx => h hx.symm)) (sees_symm hs)
      exact fun hx => this hx.symm
    · rw [(hf r hr c hc).1 (Or.inl h0), (hf r2 hr2 c2 hc2).1 (Or.inl h2)]
      exact hg h0 r2 hr2 c2 hc2 hne hs

theorem completion_cluesConsistent (g h : Grid) (hc : isCompletion g h) :
    cluesConsistent g := by
  obtain ⟨hv, ha⟩ := hc
  intro r hr c hc h0
  have e := ha r hr c hc h0
  refine ⟨by rw [← e]; exact validFull_allDigits h hv r hr c hc, ?_⟩
  intro r2 hr2 c2 hc2 hne hs
  by_cases h2 : g r2 c2 = 0
  · rw [h2]
    exact fun hx => h0 hx.symm
  · rw [← ha r2 hr2 c2 hc2 h2, ← e]
    exact validFull_noConflict h hv r hr c hc r2 hr2 c2 hc2 hne hs

/-- A conflict-free filling of a board with consistent clues is a valid completion. -/
theorem fills_completion (g f : Grid) (hf : FillsFrom g f 0) (hcl : cluesConsistent g) :
    isCompletion g f := by
  refine ⟨validFull_of_noConflict f ?_ ?_, fun r hr c hc h0 => (hf r hr c hc).1 (Or.inl h0)⟩
  · intro r hr c hc
    by_cases h0 : g r c = 0
    · exact ((hf r hr c hc).2 ⟨h0, Nat.zero_le _⟩).1
    · rw [(hf r hr c hc).1 (Or.inl h0)]
      exact (hcl r hr c hc h0).1
  · intro r hr c hc
    exact fills_noConflictAt g f hf r c hr hc (fun h0 => (hcl r hr c hc h0).2)

/-- The search started at (0,0) on a board with a valid completion succeeds and leaves a
valid completion. -/
theorem solve_of_completion (s : State) (depth : Nat) (hd : solveDepth ≤ depth)
    (hc : hasCompletion s.sudokuGrid) :
    ∃ s', solve depth 0 0 s = some (true, s') ∧ isCompletion s.sudokuGrid s'.sudokuGrid := by
  obtain ⟨h, hh⟩ := hc
  obtain ⟨s', hs'⟩ := solve_complete depth 0 0 s (by decide) (by decide) (by omega) h
    (by simpa using completion_fills _ _ hh)
  refine ⟨s', hs', ?_⟩
  have hf := solve_sound depth 0 0 s s' (by decide) (by decide) hs'
  exact fills_completion _ _ (by simpa using hf) (completion_cluesConsistent _ _ hh)

/-- The search started at (0,0) on a board with consistent clues and no valid completion
fails and leaves the globals as they were. -/
theorem solve_of_no_completion (s : State) (depth : Nat) (hd : solveDepth ≤ depth)
    (hcl : cluesConsistent s.sudokuGrid) (hno : ¬ hasCompletion s.sudokuGrid) :
    solve depth 0 0 s = some (false, s) := by
  obtain ⟨⟨b, s'⟩, hres⟩ := solve_terminates depth 0 0 s (by decide) (by decide) (by omega)
  cases b
  · have := (solve_frame _ _ _ _ _ _ hres).2.2.2.2.2.2 rfl
    rw [hres, this]
  · exfalso
    have hf := solve_sound depth 0 0 s s' (by decide) (by decide) hres
    exact hno ⟨_, fills_completion _ _ (by simpa using hf) hcl⟩

theorem onesGrid_no_completion : ¬ hasCompletion onesGrid := by
  rintro ⟨h, hv, ha⟩
  have h1 := ha 0 (by decide) 0 (by decide) (by decide)
  have h2 := ha 0 (by decide) 1 (by decide) (by decide)
  have := validFull_noConflict h hv 0 (by decide) 0 (by decide) 0 (by decide) 1 (by decide)
    (Or.inr (by decide)) (Or.inl rfl)
  rw [h1, h2] at this
  exact this rfl

theorem deadEndGrid_no_completion : ¬ hasCompletion deadEndGrid := by
  rintro ⟨h, hv, ha⟩
  have hd := validFull_allDigits h hv 0 (by decide) 8 (by decide)
  have hn := validFull_noConflict h hv 0 (by decide) 8 (by decide)
  have a0 := ha 0 (by decide) 0 (by decide) (by decide)
  have a1 := ha 0 (by decide) 1 (by decide) (by decide)
  have a2 := ha 0 (by decide) 2 (by decide) (by decide)
  have a3 := ha 0 (by decide) 3 (by decide) (by decide)
  have a4 := ha 0 (by decide) 4 (by decide) (by decide)
  have a5 := ha 0 (by decide) 5 (by decide) (by decide)
  have a6 := ha 0 (by decide) 6 (by decide) (by decide)
  have a7 := ha 0 (by decide) 7 (by decide) (by decide)
  have a8 := ha 1 (by decide) 8 (by decide) (by decide)
  have n0 := hn 0 (by decide) 0 (by decide) (Or.inr (by decide)) (Or.inl rfl)
  have n1 := hn 0 (by decide) 1 (by decide) (Or.inr (by decide)) (Or.inl rfl)
  have n2 := hn 0 (by decide) 2 (by decide) (Or.inr (by decide)) (Or.inl rfl)
  have n3 := hn 0 (by decide) 3 (by decide) (Or.inr (by decide)) (Or.inl rfl)
  have n4 := hn 0 (by decide) 4 (by decide) (Or.inr (by decide)) (Or.inl rfl)
  have n5 := hn 0 (by decide) 5 (by decide) (Or.inr (by decide)) (Or.inl rfl)
  have n6 := hn 0 (by decide) 6 (by decide) (Or.inr (by decide)) (Or.inl rfl)
  have n7 := hn 0 (by decide) 7 (by decide) (Or.inr (by decide)) (Or.inl rfl)
  have n8 := hn 1 (by decide) 8 (by decide) (Or.inl (by decide)) (Or.inr (Or.inl rfl))
  have e0 : deadEndGrid 0 0 = 1 := by decide
  have e1 : deadEndGrid 0 1 = 2 := by decide
  have e2 : deadEndGrid 0 2 = 3 := by decide
  have e3 : deadEndGrid 0 3 = 4 := by decide
  have e4 : deadEndGrid 0 4 = 5 := by decide
  have e5 : deadEndGrid 0 5 = 6 := by decide
  have e6 : deadEndGrid 0 6 = 7 := by decide
  have e7 : deadEndGrid 0 7 = 8 := by decide
  have e8 : deadEndGrid 1 8 = 9 := by decide
  rw [a0, e0] at n0
  rw [a1, e1] at n1
  rw [a2, e2] at n2
  rw [a3, e3] at n3
  rw [a4, e4] at n4
  rw [a5, e5] at n5
  rw [a6, e6] at n6
  rw [a7, e7] at n7
  rw [a8, e8] at n8
  omega

theorem diagPuzzle_hasCompletion : hasCompletion diagPuzzle :=
  ⟨bandGrid, by decide, by decide⟩

/-! ## The generator: base grid -/

theorem foldl_setCell (f : Nat → Int) (row : Nat) (cols : List Nat) (g : Grid) (r c : Nat) :
    (cols.foldl (fun g col => setCell g row col (f col)) g) r c =
      if r = row ∧ c ∈ cols then f c else g r c := by
  induction cols generalizing g with
  | nil => simp
  | cons col cols ih =>
    rw [List.foldl_cons, ih]
    by_cases h1 : r = row ∧ c ∈ cols
    · rw [if_pos h1, if_pos ⟨h1.1, List.mem_cons_of_mem _ h1.2⟩]
    · rw [if_neg h1]
      by_cases h2 : r = row ∧ c = col
      · rw [if_pos ⟨h2.1, by rw [h2.2]; exact List.mem_cons_self _ _⟩, h2.1, h2.2, setCell_same]
      · rw [setCell_other _ _ _ _ _ _ ((cell_ne_iff _ _ _ _).mpr h2), if_neg]
        rintro ⟨e1, e2⟩
        rcases List.mem_cons.mp e2 with e3 | e3
        · exact h2 ⟨e1, e3⟩
        · exact h1 ⟨e1, e3⟩

theorem fillRow_apply (baseRow : List Int) (row : Nat) (g : Grid) (r c : Nat) :
    fillRow baseRow row g r c =
      if r = row ∧ c < gridSize then baseRow.getD (baseIndex row c) 0 else g r c := by
  unfold fillRow
  rw [foldl_setCell (fun col => baseRow.getD (baseIndex row col) 0)]
  simp only [List.mem_range]

theorem foldl_fillRow (baseRow : List Int) (rows : List Nat) (g : Grid) (r c : Nat) :
    (rows.foldl (fun g row => fillRow baseRow row g) g) r c =
      if r ∈ rows ∧ c < gridSize then baseRow.getD (baseIndex r c) 0 else g r c := by
  induction rows generalizing g with
  | nil => simp
  | cons row rows ih =>
    rw [List.foldl_cons, ih, fillRow_apply]
    by_cases h1 : r ∈ rows ∧ c < gridSize
    · rw [if_pos h1, if_pos ⟨List.mem_cons_of_mem _ h1.1, h1.2⟩]
    · rw [if_neg h1]
      by_cases h2 : r = row ∧ c < gridSize
      · rw [if_pos h2, if_pos ⟨by rw [h2.1]; exact List.mem_cons_self _ _, h2.2⟩, h2.1]
      · rw [if_neg h2, if_neg]
        rintro ⟨e1, e2⟩
        rcases List.mem_cons.mp e1 with e3 | e3
        · exact h2 ⟨e3, e2⟩
        · exact h1 ⟨e3, e2⟩

/-- Closed form of the pre-removal grid. -/
theorem baseGrid_apply (baseRow : List Int) (row col : Nat) (hr : row < gridSize)
    (hc : col < gridSize) :
    baseGrid baseRow row col = baseRow.getD ((col + row * 3 + row / 3) % gridSize) 0 := by
  unfold baseGrid fillGrid
  rw [foldl_fillRow, if_pos ⟨List.mem_range.mpr hr, hc⟩]
  rfl

theorem baseIndex_lt (row col : Nat) : baseIndex row col < gridSize := by
  unfold baseIndex gridSize
  omega

/-- Distinct cells that share a row, a column or a box read distinct positions of `baseRow`. -/
theorem baseIndex_noConflict : noConflict (fun r c => (baseIndex r c : Int)) := by decide

theorem perm_getD_digit (baseRow : List Int) (hperm : baseRow.Perm digits) (k : Nat)
    (hk : k < gridSize) : 1 ≤ baseRow.getD k 0 ∧ baseRow.getD k 0 ≤ 9 := by
  have hlen : baseRow.length = 9 := hperm.length_eq
  have hk2 : k < baseRow.length := by rw [hlen]; exact hk
  rw [List.getD_eq_getElem _ _ hk2]
  exact (mem_digits_iff _).mp (hperm.mem_iff.mp (List.getElem_mem hk2))

theorem perm_getD_inj (baseRow : List Int) (hperm : baseRow.Perm digits) (i j : Nat)
    (hi : i < gridSize) (hj : j < gridSize) (h : baseRow.getD i 0 = baseRow.getD j 0) :
    i = j := by
  have hlen : baseRow.length = 9 := hperm.length_eq
  have hi2 : i < baseRow.length := by rw [hlen]; exact hi
  have hj2 : j < baseRow.length := by rw [hlen]; exact hj
  rw [List.getD_eq_getElem _ _ hi2, List.getD_eq_getElem _ _ hj2] at h
  exact (List.Nodup.getElem_inj_iff (hperm.nodup_iff.mpr digits_nodup)).mp h

theorem baseGrid_allDigits (baseRow : List Int) (hperm : baseRow.Perm digits) :
    allDigits (baseGrid baseRow) := by
  intro r hr c hc
  rw [baseGrid_apply baseRow r c hr hc]
  exact perm_getD_digit baseRow hperm _ (baseIndex_lt r c)

theorem baseGrid_validFull (baseRow : List Int) (hperm : baseRow.Perm digits) :
    validFull (baseGrid baseRow) := by
  refine validFull_of_noConflict _ (baseGrid_allDigits baseRow hperm) ?_
  intro r hr c hc r2 hr2 c2 hc2 hne hs heq
  rw [baseGrid_apply baseRow _ _ hr hc, baseGrid_apply baseRow _ _ hr2 hc2] at heq
  have := perm_getD_inj baseRow hperm _ _ (baseIndex_lt r2 c2) (baseIndex_lt r c) heq
  have hx := baseIndex_noConflict r hr c hc r2 hr2 c2 hc2 hne hs
  apply hx
  show ((baseIndex r2 c2 : Nat) : Int) = ((baseIndex r c : Nat) : Int)
  rw [this]

/-! ## The generator: removal loop -/

theorem drawn_zero (gen : Nat → Nat × Nat) (r c : Nat) : ¬ drawn gen 0 r c := by
  rintro ⟨i, hi, _⟩
  omega

theorem drawn_succ (gen : Nat → Nat × Nat) (n r c : Nat) :
    drawn gen (n + 1) r c ↔ drawn gen n r c ∨ drawnCell gen n = (r, c) := by
  constructor
  · rintro ⟨i, hi, h⟩
    by_cases hin : i = n
    · rw [hin] at h
      exact Or.inr h
    · exact Or.inl ⟨i, by omega, h⟩
  · rintro (⟨i, hi, h⟩ | h)
    · exact ⟨i, by omega, h⟩
    · exact ⟨n, by omega, h⟩

theorem drawn_lt (gen : Nat → Nat × Nat) (n r c : Nat) (h : drawn gen n r c) :
    r < gridSize ∧ c < gridSize := by
  obtain ⟨i, _, hi⟩ := h
  unfold drawnCell at hi
  simp only [Prod.mk.injEq] at hi
  rw [← hi.1, ← hi.2]
  exact ⟨Nat.mod_lt _ (by decide), Nat.mod_lt _ (by decide)⟩

theorem removeLoop_succ (gen : Nat → Nat × Nat) (n : Nat) (s : State) :
    removeLoop gen (n + 1) s = removeCell (removeLoop gen n s) (gen n) := by
  unfold removeLoop
  rw [List.range_succ, List.foldl_append]
  rfl

/-- State after `n` iterations of the removal loop: drawn cells are empty and editable, all
other cells and the remaining globals are as before the loop. -/
theorem removeLoop_spec (gen : Nat → Nat × Nat) (s : State) (n : Nat) :
    (∀ r c, (drawn gen n r c → (removeLoop gen n s).sudokuGrid r c = 0 ∧
                (removeLoop gen n s).isEditable r c = true) ∧
            (¬ drawn gen n r c → (removeLoop gen n s).sudokuGrid r c = s.sudokuGrid r c ∧
                (removeLoop gen n s).isEditable r c = s.isEditable r c)) ∧
    (removeLoop gen n s).isIncorrect = s.isIncorrect ∧
    (removeLoop gen n s).selectedRow = s.selectedRow ∧
    (removeLoop gen n s).selectedCol = s.selectedCol ∧
    (removeLoop gen n s).difficultyLevel = s.difficultyLevel := by
  induction n with
  | zero =>
    refine ⟨fun r c => ⟨fun h => absurd h (drawn_zero gen r c), fun _ => ⟨rfl, rfl⟩⟩,
      rfl, rfl, rfl, rfl⟩
  | succ n ih =>
    obtain ⟨ih1, ih2, ih3, ih4, ih5⟩ := ih
    rw [removeLoop_succ]
    refine ⟨fun r c => ?_, ih2, ih3, ih4, ih5⟩
    rw [drawn_succ]
    unfold removeCell
    dsimp only
    by_cases hcell : r = (gen n).1 % gridSize ∧ c = (gen n).2 % gridSize
    · have hd : drawnCell gen n = (r, c) := by
        unfold drawnCell; rw [hcell.1, hcell.2]
      refine ⟨fun _ => ?_, fun h => absurd (Or.inr hd) h⟩
      simp only [setCell, setFlag, hcell, and_self, if_true]
    · have hd : ¬ drawnCell gen n = (r, c) := by
        unfold drawnCell
        rw [Prod.mk.injEq]
        exact fun h => hcell ⟨h.1.symm, h.2.symm⟩
      have e1 : setCell (removeLoop gen n s).sudokuGrid ((gen n).1 % gridSize)
          ((gen n).2 % gridSize) 0 r c = (removeLoop gen n s).sudokuGrid r c := by
        unfold setCell; rw [if_neg hcell]
      have e2 : setFlag (removeLoop gen n s).isEditable ((gen n).1 % gridSize)
          ((gen n).2 % gridSize) true r c = (removeLoop gen n s).isEditable r c := by
        unfold setFlag; rw [if_neg hcell]
      rw [e1, e2]
      refine ⟨fun h => ?_, fun h => ?_⟩
      · rcases h with h | h
        · exact (ih1 r c).1 h
        · exact absurd h hd
      · exact (ih1 r c).2 (fun hx => h (Or.inl hx))

/-- The globals left by `populateSudokuGrid`, cell by cell. -/
theorem populate_spec (s : State) (baseRow : List Int) (gen : Nat → Nat × Nat) (r c : Nat) :
    (drawn gen (cellsToRemove s.difficultyLevel) r c →
      (populateSudokuGrid s baseRow gen).sudokuGrid r c = 0 ∧
      (populateSudokuGrid s baseRow gen).isEditable r c = true) ∧
    (¬ drawn gen (cellsToRemove s.difficultyLevel) r c →
      (populateSudokuGrid s baseRow gen).sudokuGrid r c = baseGrid baseRow r c ∧
      (populateSudokuGrid s baseRow gen).isEditable r c = false) ∧
    (populateSudokuGrid s baseRow gen).isIncorrect r c = false := by
  unfold populateSudokuGrid
  dsimp only
  have h := removeLoop_spec gen
    { s with sudokuGrid := fillGrid baseRow emptyGrid, isEditable := falseMask,
             isIncorrect := falseMask } (cellsToRemove s.difficultyLevel)
  refine ⟨(h.1 r c).1, (h.1 r c).2, ?_⟩
  rw [h.2.1]
  rfl

/-! ## The generator: counting removed cells -/

theorem allCells_nodup : allCells.Nodup :=
  List.Nodup.product (List.nodup_range _) (List.nodup_range _)

theorem mem_allCells (r c : Nat) : (r, c) ∈ allCells ↔ r < gridSize ∧ c < gridSize := by
  unfold allCells
  rw [List.pair_mem_product, List.mem_range, List.mem_range]

theorem allCells_length : allCells.length = 81 := by decide

/-- The empty cells of a board whose empty cells are exactly the drawn cells are counted by
the image of the draw sequence. -/
theorem emptyCount_eq (g : Grid) (gen : Nat → Nat × Nat) (n : Nat)
    (h : ∀ r < gridSize, ∀ c < gridSize, (g r c = 0 ↔ drawn gen n r c)) :
    emptyCount g = ((Finset.range n).image (drawnCell gen)).card := by
  unfold emptyCount
  rw [List.countP_eq_length_filter,
    ← List.toFinset_card_of_nodup (allCells_nodup.filter _), List.toFinset_filter]
  congr 1
  ext ⟨r, c⟩
  simp only [Finset.mem_filter, List.mem_toFinset, mem_allCells, beq_iff_eq, Finset.mem_image,
    Finset.mem_range]
  constructor
  · rintro ⟨⟨hr, hc⟩, h0⟩
    exact (h r hr c hc).mp h0
  · intro hd
    have hlt := drawn_lt gen n r c hd
    exact ⟨hlt, (h r hlt.1 c hlt.2).mpr hd⟩

theorem emptyCount_le (g : Grid) (gen : Nat → Nat × Nat) (n : Nat)
    (h : ∀ r < gridSize, ∀ c < gridSize, (g r c = 0 ↔ drawn gen n r c)) :
    emptyCount g ≤ n := by
  rw [emptyCount_eq g gen n h]
  exact le_trans Finset.card_image_le (le_of_eq (Finset.card_range n))

theorem emptyCount_distinct (g : Grid) (gen : Nat → Nat × Nat) (n : Nat)
    (h : ∀ r < gridSize, ∀ c < gridSize, (g r c = 0 ↔ drawn gen n r c))
    (hd : distinctDraws gen n) : emptyCount g = n := by
  rw [emptyCount_eq g gen n h, Finset.card_image_of_injOn, Finset.card_range]
  intro i hi j hj heq
  exact hd i (Finset.mem_range.mp hi) j (Finset.mem_range.mp hj) heq

/-- When the editable cells are exactly the empty ones, the non-editable cells are the other
cells of the 81. -/
theorem falseCount_add_emptyCount (g : Grid) (m : Mask)
    (h : ∀ r < gridSize, ∀ c < gridSize, (m r c = true ↔ g r c = 0)) :
    falseCount m + emptyCount g = 81 := by
  have h1 := List.length_eq_countP_add_countP (fun p : Nat × Nat => g p.1 p.2 == 0) allCells
  rw [allCells_length] at h1
  have h2 : falseCount m
      = allCells.countP (fun p => decide ¬ ((g p.1 p.2 == 0) = true)) := by
    unfold falseCount
    apply List.countP_congr
    rintro ⟨r, c⟩ hp
    obtain ⟨hr, hc⟩ := (mem_allCells r c).mp hp
    have := h r hr c hc
    simp only [Bool.not_eq_true', beq_iff_eq, decide_eq_true_eq]
    constructor
    · intro hm h0
      rw [this.mpr h0] at hm
      exact absurd hm (by simp)
    · intro h0
      cases hm : m r c
      · rfl
      · exact absurd (this.mp hm) h0
  unfold emptyCount
  rw [h2]
  omega

/-- In the output of `populateSudokuGrid`, a cell is empty exactly when it was drawn. -/
theorem populate_empty_iff (s : State) (baseRow : List Int) (gen : Nat → Nat × Nat)
    (hperm : baseRow.Perm digits) (r c : Nat) (hr : r < gridSize) (hc : c < gridSize) :
    (populateSudokuGrid s baseRow gen).sudokuGrid r c = 0 ↔
      drawn gen (cellsToRemove s.difficultyLevel) r c := by
  obtain ⟨h1, h2, _⟩ := populate_spec s baseRow gen r c
  constructor
  · intro h0
    by_contra hnd
    rw [(h2 hnd).1] at h0
    have := baseGrid_allDigits baseRow hperm r hr c hc
    omega
  · intro hd
    exact (h1 hd).1

theorem populate_editable_iff (s : State) (baseRow : List Int) (gen : Nat → Nat × Nat)
    (r c : Nat) :
    (populateSudokuGrid s baseRow gen).isEditable r c = true ↔
      drawn gen (cellsToRemove s.difficultyLevel) r c := by
  obtain ⟨h1, h2, _⟩ := populate_spec s baseRow gen r c
  constructor
  · intro he
    by_contra hnd
    rw [(h2 hnd).2] at he
    exact absurd he (by simp)
  · intro hd
    exact (h1 hd).2

/-- The pre-removal grid is a valid completion of every generated puzzle. -/
theorem populate_hasCompletion (s : State) (baseRow : List Int) (gen : Nat → Nat × Nat)
    (hperm : baseRow.Perm digits) :
    hasCompletion (populateSudokuGrid s baseRow gen).sudokuGrid := by
  refine ⟨baseGrid baseRow, baseGrid_validFull baseRow hperm, fun r _ c _ h0 => ?_⟩
  obtain ⟨h1, h2, _⟩ := populate_spec s baseRow gen r c
  by_cases hd : drawn gen (cellsToRemove s.difficultyLevel) r c
  · exact absurd (h1 hd).1 h0
  · exact (h2 hd).1.symm

theorem sweepGen_distinct : distinctDraws sweepGen 30 := by decide

theorem shuffledRow_perm : shuffledRow.Perm digits := by decide

theorem deadEnd_fails :
    solve solveDepth 0 0 (boardState deadEndGrid) = some (false, boardState deadEndGrid) := by
  rfl

/-- The search started at (0,0) fails, leaving the globals as they were, exactly on the boards
that have no conflict-free filling. -/
theorem solve_fails_iff (s : State) (depth : Nat) (hd : solveDepth ≤ depth) :
    ¬ hasFilling s.sudokuGrid ↔ solve depth 0 0 s = some (false, s) := by
  constructor
  · intro hno
    obtain ⟨⟨b, s'⟩, hres⟩ := solve_terminates depth 0 0 s (by decide) (by decide) (by omega)
    cases b
    · have := (solve_frame _ _ _ _ _ _ hres).2.2.2.2.2.2 rfl
      rw [hres, this]
    · exfalso
      have hf := solve_sound depth 0 0 s s' (by decide) (by decide) hres
      exact hno ⟨_, by simpa using hf⟩
  · rintro hres ⟨f, hf⟩
    obtain ⟨s', hs'⟩ := solve_complete depth 0 0 s (by decide) (by decide) (by omega) f
      (by simpa using hf)
    rw [hres] at hs'
    simp at hs'

theorem conflictDeadEnd_no_filling : ¬ hasFilling conflictDeadEnd := by
  rintro ⟨f, hf⟩
  obtain ⟨hd, hn⟩ := (hf 0 (by decide) 8 (by decide)).2 ⟨by decide, Nat.zero_le _⟩
  have a0 := (hf 0 (by decide) 0 (by decide)).1 (Or.inl (by decide))
  have a1 := (hf 0 (by decide) 1 (by decide)).1 (Or.inl (by decide))
  have a2 := (hf 0 (by decide) 2 (by decide)).1 (Or.inl (by decide))
  have a3 := (hf 0 (by decide) 3 (by decide)).1 (Or.inl (by decide))
  have a4 := (hf 0 (by decide) 4 (by decide)).1 (Or.inl (by decide))
  have a5 := (hf 0 (by decide) 5 (by decide)).1 (Or.inl (by decide))
  have a6 := (hf 0 (by decide) 6 (by decide)).1 (Or.inl (by decide))
  have a7 := (hf 0 (by decide) 7 (by decide)).1 (Or.inl (by decide))
  have a8 := (hf 1 (by decide) 8 (by decide)).1 (Or.inl (by decide))
  have n0 := hn 0 (by decide) 0 (by decide) (Or.inr (by decide)) (Or.inl rfl)
  have n1 := hn 0 (by decide) 1 (by decide) (Or.inr (by decide)) (Or.inl rfl)
  have n2 := hn 0 (by decide) 2 (by decide) (Or.inr (by decide)) (Or.inl rfl)
  have n3 := hn 0 (by decide) 3 (by decide) (Or.inr (by decide)) (Or.inl rfl)
  have n4 := hn 0 (by decide) 4 (by decide) (Or.inr (by decide)) (Or.inl rfl)
  have n5 := hn 0 (by decide) 5 (by decide) (Or.inr (by decide)) (Or.inl rfl)
  have n6 := hn 0 (by decide) 6 (by decide) (Or.inr (by decide)) (Or.inl rfl)
  have n7 := hn 0 (by decide) 7 (by decide) (Or.inr (by decide)) (Or.inl rfl)
  have n8 := hn 1 (by decide) 8 (by decide) (Or.inl (by decide)) (Or.inr (Or.inl rfl))
  have e0 : conflictDeadEnd 0 0 = 1 := by decide
  have e1 : conflictDeadEnd 0 1 = 2 := by decide
  have e2 : conflictDeadEnd 0 2 = 3 := by decide
  have e3 : conflictDeadEnd 0 3 = 4 := by decide
  have e4 : conflictDeadEnd 0 4 = 5 := by decide
  have e5 : conflictDeadEnd 0 5 = 6 := by decide
  have e6 : conflictDeadEnd 0 6 = 7 := by decide
  have e7 : conflictDeadEnd 0 7 = 8 := by decide
  have e8 : conflictDeadEnd 1 8 = 9 := by decide
  rw [a0, e0] at n0
  rw [a1, e1] at n1
  rw [a2, e2] at n2
  rw [a3, e3] at n3
  rw [a4, e4] at n4
  rw [a5, e5] at n5
  rw [a6, e6] at n6
  rw [a7, e7] at n7
  rw [a8, e8] at n8
  omega

/-- On the board of 1s with an empty corner the search rejects 1, places 2 and succeeds. -/
theorem onesHole_succeeds :
    solve solveDepth 0 0 (boardState onesHole)
      = some (true, { boardState onesHole with sudokuGrid := setCell onesHole 0 0 2 }) := by
  rfl

/-! ## Claims -/

/-- C1. Solver totality: on every board that has at least one valid completion (a full grid
that agrees with every non-empty cell and has each of 1..9 exactly once in every row, column
and box) the search `solve(0,0)` returns true, for every call-depth budget of at least 82
frames, and the board it leaves has no empty cell and no two distinct cells of one row, column
or box holding the same value. That the entries lie in 0..9 follows from the completion. -/
theorem solver_totality (s : State) (depth : Nat) (hd : solveDepth ≤ depth)
    (hc : hasCompletion s.sudokuGrid) :
    ∃ s', solve depth 0 0 s = some (true, s') ∧
      noEmpty s'.sudokuGrid ∧ noConflict s'.sudokuGrid := by
  obtain ⟨s', hs', hv, _⟩ := solve_of_completion s depth hd hc
  refine ⟨s', hs', fun r hr c hc h0 => ?_, validFull_noConflict _ hv⟩
  have := validFull_allDigits _ hv r hr c hc
  omega

theorem solver_totality_witness :
    solveDepth ≤ solveDepth ∧ hasCompletion (boardState diagPuzzle).sudokuGrid ∧
      ∃ s', autoComplete (boardState diagPuzzle) = some (true, s') ∧
        noEmpty s'.sudokuGrid ∧ noConflict s'.sudokuGrid :=
  ⟨le_refl _, diagPuzzle_hasCompletion,
    solver_totality (boardState diagPuzzle) solveDepth (le_refl _) diagPuzzle_hasCompletion⟩

/-- C2, as stated, fails: the full board of 1s has no valid completion, yet `solve(0,0)` skips
all 81 non-empty cells and returns true. -/
theorem solver_soundness_counterexample :
    ¬ hasCompletion (boardState onesGrid).sudokuGrid ∧
      solve solveDepth 0 0 (boardState onesGrid) = some (true, boardState onesGrid) :=
  ⟨onesGrid_no_completion, by rfl⟩

/-- C2, amended. For every board and every call-depth budget of at least 82 frames,
`solve(0,0)` returns false exactly when the board has no conflict-free filling of its empty
cells, and it then leaves the globals as they were, so every cell that was empty before the
call is empty after it. A board on which the search returns false has no valid completion;
and every board with no valid completion whose non-empty cells hold digits 1..9 that do not
conflict with each other is a board with no conflict-free filling. -/
theorem solver_soundness_no_filling (s : State) (depth : Nat) (hd : solveDepth ≤ depth) :
    (¬ hasFilling s.sudokuGrid ↔ solve depth 0 0 s = some (false, s)) ∧
    (¬ hasFilling s.sudokuGrid →
      ∃ s', solve depth 0 0 s = some (false, s') ∧
        ∀ r < gridSize, ∀ c < gridSize, s.sudokuGrid r c = 0 → s'.sudokuGrid r c = 0) ∧
    (¬ hasFilling s.sudokuGrid → ¬ hasCompletion s.sudokuGrid) ∧
    (cluesConsistent s.sudokuGrid → ¬ hasCompletion s.sudokuGrid →
      ¬ hasFilling s.sudokuGrid) := by
  have hiff := solve_fails_iff s depth hd
  refine ⟨hiff, fun hno => ⟨s, hiff.mp hno, fun _ _ _ _ h => h⟩, ?_, ?_⟩
  · rintro hno ⟨h, hh⟩
    exact hno ⟨h, completion_fills _ _ hh⟩
  · rintro hcl hno ⟨f, hf⟩
    exact hno ⟨f, fills_completion _ f hf hcl⟩

/-- C2, amended, at a board whose clues conflict (two 1s in column 0): it has no conflict-free
filling and no valid completion, and the search returns false and restores it. -/
theorem solver_soundness_no_filling_witness :
    solveDepth ≤ solveDepth ∧ ¬ cluesConsistent conflictDeadEnd ∧
      ¬ hasFilling (boardState conflictDeadEnd).sudokuGrid ∧
      ¬ hasCompletion (boardState conflictDeadEnd).sudokuGrid ∧
      autoComplete (boardState conflictDeadEnd) = some (false, boardState conflictDeadEnd) :=
  ⟨le_refl _, by decide, conflictDeadEnd_no_filling,
    (solver_soundness_no_filling (boardState conflictDeadEnd) solveDepth (le_refl _)).2.2.1
      conflictDeadEnd_no_filling,
    (solver_soundness_no_filling (boardState conflictDeadEnd) solveDepth (le_refl _)).1.mp
      conflictDeadEnd_no_filling⟩

/-- C3, as stated, fails: with 5 in cell (0,0) and every other cell empty,
`isValidEntry(0, 0, 5)` returns false although no cell other than (0,0) holds 5. -/
theorem isValidEntry_self_counterexample :
    isValidEntry cornerFive 0 0 5 = false ∧
      ¬ ∃ r < gridSize, ∃ c < gridSize,
        (r ≠ 0 ∨ c ≠ 0) ∧ sees 0 0 r c ∧ cornerFive r c = 5 := by
  decide

/-- C3, amended. For row and col in 0..8, `isValidEntry(row, col, value)` returns false iff
value is held by some cell of row `row`, of column `col` or of the box of `(row, col)`, the
cell `(row, col)` itself included in the scan; so it returns false whenever that cell
holds value. -/
theorem isValidEntry_false_iff (g : Grid) (row col : Nat) (value : Int)
    (hr : row < gridSize) (hc : col < gridSize) :
    (isValidEntry g row col value = false ↔
      ∃ r < gridSize, ∃ c < gridSize, sees row col r c ∧ g r c = value) ∧
    (g row col = value → isValidEntry g row col value = false) := by
  have h := isValidEntry_iff g row col value hr hc
  have hiff : isValidEntry g row col value = false ↔
      ∃ r < gridSize, ∃ c < gridSize, sees row col r c ∧ g r c = value := by
    constructor
    · intro hf
      by_contra hne
      have : isValidEntry g row col value = true :=
        h.mpr (fun r hr2 c hc2 hs hv => hne ⟨r, hr2, c, hc2, hs, hv⟩)
      rw [hf] at this
      exact absurd this (by simp)
    · rintro ⟨r, hr2, c, hc2, hs, hv⟩
      cases hx : isValidEntry g row col value
      · rfl
      · exact absurd hv (h.mp hx r hr2 c hc2 hs)
  exact ⟨hiff, fun hv => hiff.mpr ⟨row, hr, col, hc, Or.inl rfl, hv⟩⟩

theorem isValidEntry_false_iff_witness :
    (0 < gridSize ∧ 0 < gridSize) ∧
    (isValidEntry cornerFive 0 0 5 = false ↔
      ∃ r < gridSize, ∃ c < gridSize, sees 0 0 r c ∧ cornerFive r c = 5) ∧
    (cornerFive 0 0 = 5 → isValidEntry cornerFive 0 0 5 = false) :=
  ⟨⟨by decide, by decide⟩, isValidEntry_false_iff cornerFive 0 0 5 (by decide) (by decide)⟩

/-- C4. Generation correctness: for every permutation `baseRow` of 1..9 the pre-removal grid
of `populateSudokuGrid` is `grid[row][col] = baseRow[(col + row*3 + row/3) mod 9]` on rows and
columns 0..8 and contains each of 1..9 exactly once in every row, column and box. -/
theorem generation_correctness (baseRow : List Int) (hperm : baseRow.Perm digits) :
    (∀ row < gridSize, ∀ col < gridSize,
      baseGrid baseRow row col = baseRow.getD ((col + row * 3 + row / 3) % 9) 0) ∧
    validFull (baseGrid baseRow) :=
  ⟨fun row hr col hc => baseGrid_apply baseRow row col hr hc, baseGrid_validFull baseRow hperm⟩

theorem generation_correctness_witness :
    shuffledRow.Perm digits ∧ validFull (baseGrid shuffledRow) :=
  ⟨by decide, (generation_correctness shuffledRow (by decide)).2⟩

/-- C5. For every board with entries in 0..9, `isPuzzleSolved` returns true iff no cell is
empty and no two distinct cells that share a row, a column or a box hold the same value;
and that condition is the same as every row, column and box containing each of 1..9 exactly
once. -/
theorem isPuzzleSolved_iff (s : State) (hrange : entriesInRange s.sudokuGrid) :
    ((isPuzzleSolved s).1 = true ↔ noEmpty s.sudokuGrid ∧ noConflict s.sudokuGrid) ∧
    ((noEmpty s.sudokuGrid ∧ noConflict s.sudokuGrid) ↔ validFull s.sudokuGrid) :=
  ⟨(isPuzzleSolved_spec s).2, (validFull_iff s.sudokuGrid hrange).symm⟩

theorem isPuzzleSolved_iff_witness :
    entriesInRange (boardState bandGrid).sudokuGrid ∧
      (isPuzzleSolved (boardState bandGrid)).1 = true ∧
      (isPuzzleSolved (boardState diagPuzzle)).1 = false :=
  ⟨by decide,
    (isPuzzleSolved_iff (boardState bandGrid) (by decide)).1.mpr ⟨by decide, by decide⟩,
    by decide⟩

/-- C6. Every generated puzzle is solvable by the solver: for every permutation `baseRow` of
1..9, every value of `difficultyLevel` and every stream of drawn coordinates, `solve(0,0)` run
on the board left by `populateSudokuGrid` returns true (for every call-depth budget of at
least 82 frames) and `isPuzzleSolved` then returns true on the resulting board. -/
theorem generated_puzzle_solvable (s : State) (baseRow : List Int) (gen : Nat → Nat × Nat)
    (hperm : baseRow.Perm digits) (depth : Nat) (hd : solveDepth ≤ depth) :
    ∃ s', solve depth 0 0 (populateSudokuGrid s baseRow gen) = some (true, s') ∧
      (isPuzzleSolved s').1 = true := by
  obtain ⟨s', hs', hv, _⟩ := solve_of_completion _ depth hd
    (populate_hasCompletion s baseRow gen hperm)
  refine ⟨s', hs', (isPuzzleSolved_spec s').2.mpr ⟨fun r hr c hc h0 => ?_,
    validFull_noConflict _ hv⟩⟩
  have := validFull_allDigits _ hv r hr c hc
  omega

/-- C6 at a concrete input: a shuffled base row, Hard difficulty, draws that repeat. -/
theorem generated_puzzle_solvable_witness :
    shuffledRow.Perm digits ∧ solveDepth ≤ solveDepth ∧
      ∃ s', autoComplete (populateSudokuGrid { boardState emptyGrid with difficultyLevel := 2 }
          shuffledRow diagGen) = some (true, s') ∧ (isPuzzleSolved s').1 = true :=
  ⟨by decide, le_refl _,
    generated_puzzle_solvable { boardState emptyGrid with difficultyLevel := 2 } shuffledRow
      diagGen (by decide) solveDepth (le_refl _)⟩

/-- C7. The solver never overwrites a non-empty cell: for every board and every call-depth
budget of at least 82 frames `solve(0,0)` returns, with true or with false, and every cell that
was non-empty before the call holds the same value after it, and the `isEditable` and
`isIncorrect` masks are unchanged. -/
theorem solver_keeps_filled_cells (s : State) (depth : Nat) (hd : solveDepth ≤ depth) :
    ∃ b s', solve depth 0 0 s = some (b, s') ∧
      (∀ r c, s.sudokuGrid r c ≠ 0 → s'.sudokuGrid r c = s.sudokuGrid r c) ∧
      s'.isEditable = s.isEditable ∧ s'.isIncorrect = s.isIncorrect := by
  obtain ⟨⟨b, s'⟩, hres⟩ := solve_terminates depth 0 0 s (by decide) (by decide) (by omega)
  obtain ⟨h1, h2, _, _, _, h6, _⟩ := solve_frame _ _ _ _ _ _ hres
  exact ⟨b, s', hres, h6, h1, h2⟩

/-- C7 at a concrete input: the shifted-band grid with its diagonal emptied. -/
theorem solver_keeps_filled_cells_witness :
    solveDepth ≤ solveDepth ∧
      ∃ b s', autoComplete (boardState diagPuzzle) = some (b, s') ∧
        (∀ r c, diagPuzzle r c ≠ 0 → s'.sudokuGrid r c = diagPuzzle r c) ∧
        s'.isEditable = falseMask ∧ s'.isIncorrect = falseMask :=
  ⟨le_refl _, solver_keeps_filled_cells (boardState diagPuzzle) solveDepth (le_refl _)⟩

/-- C8. Failure is atomic: for every board and every call-depth budget of at least 82 frames
`solve(0,0)` returns, and whenever it returns false the globals it leaves are the ones it
started from; in particular the board is equal to the starting board cell for cell. -/
theorem solver_failure_atomic (s : State) (depth : Nat) (hd : solveDepth ≤ depth) :
    (∃ r, solve depth 0 0 s = some r) ∧
    ∀ s', solve depth 0 0 s = some (false, s') →
      s' = s ∧ sameBoard s.sudokuGrid s'.sudokuGrid := by
  refine ⟨solve_terminates depth 0 0 s (by decide) (by decide) (by omega), fun s' h => ?_⟩
  have := (solve_frame _ _ _ _ _ _ h).2.2.2.2.2.2 rfl
  subst this
  exact ⟨rfl, fun _ _ _ _ => rfl⟩

/-- C8 at a concrete input on which the search does return false. -/
theorem solver_failure_atomic_witness :
    solveDepth ≤ solveDepth ∧
      ∃ s', autoComplete (boardState deadEndGrid) = some (false, s') ∧
        s' = boardState deadEndGrid ∧ sameBoard deadEndGrid s'.sudokuGrid :=
  ⟨le_refl _, boardState deadEndGrid, deadEnd_fails,
    (solver_failure_atomic (boardState deadEndGrid) solveDepth (le_refl _)).2 _ deadEnd_fails⟩

/-- C9. Generator output masks: for every permutation `baseRow` of 1..9, every value of
`difficultyLevel` and every stream of drawn coordinates, after `populateSudokuGrid` a cell of
the board is editable iff it was drawn at least once iff it is empty; every non-editable cell
holds its pre-removal value, a digit 1..9; and `isIncorrect` is false for all 81 cells. -/
theorem generator_masks (s : State) (baseRow : List Int) (gen : Nat → Nat × Nat)
    (hperm : baseRow.Perm digits) :
    ∀ r < gridSize, ∀ c < gridSize,
      ((populateSudokuGrid s baseRow gen).isEditable r c = true ↔
        drawn gen (cellsToRemove s.difficultyLevel) r c) ∧
      (drawn gen (cellsToRemove s.difficultyLevel) r c ↔
        (populateSudokuGrid s baseRow gen).sudokuGrid r c = 0) ∧
      ((populateSudokuGrid s baseRow gen).isEditable r c = false →
        (populateSudokuGrid s baseRow gen).sudokuGrid r c = baseGrid baseRow r c ∧
        1 ≤ (populateSudokuGrid s baseRow gen).sudokuGrid r c ∧
        (populateSudokuGrid s baseRow gen).sudokuGrid r c ≤ 9) ∧
      (populateSudokuGrid s baseRow gen).isIncorrect r c = false := by
  intro r hr c hc
  have he := populate_editable_iff s baseRow gen r c
  refine ⟨he, (populate_empty_iff s baseRow gen hperm r c hr hc).symm, fun hf => ?_,
    (populate_spec s baseRow gen r c).2.2⟩
  have hnd : ¬ drawn gen (cellsToRemove s.difficultyLevel) r c := by
    intro hx
    rw [he.mpr hx] at hf
    exact absurd hf (by simp)
  have hg := ((populate_spec s baseRow gen r c).2.1 hnd).1
  rw [hg]
  exact ⟨rfl, baseGrid_allDigits baseRow hperm r hr c hc⟩

/-- C9 at a concrete input: a shuffled base row, Medium difficulty, draws that repeat. -/
theorem generator_masks_witness :
    shuffledRow.Perm digits ∧
      ((populateSudokuGrid { boardState emptyGrid with difficultyLevel := 1 } shuffledRow
          diagGen).isEditable 4 4 = true ↔ drawn diagGen 45 4 4) ∧
      (populateSudokuGrid { boardState emptyGrid with difficultyLevel := 1 } shuffledRow
          diagGen).isIncorrect 0 1 = false :=
  ⟨by decide,
    (generator_masks { boardState emptyGrid with difficultyLevel := 1 } shuffledRow diagGen
      (by decide) 4 (by decide) 4 (by decide)).1,
    (generator_masks { boardState emptyGrid with difficultyLevel := 1 } shuffledRow diagGen
      (by decide) 0 (by decide) 1 (by decide)).2.2.2⟩

/-- C10. Removal count: `cellsToRemove` is 30 at Easy (0), 45 at Medium (1) and 70 at Hard (2);
after `populateSudokuGrid` the number of empty cells is at most `cellsToRemove` for every
stream of drawn coordinates and exactly `cellsToRemove` when the drawn coordinates are pairwise
distinct; at Easy with no repeated draw exactly 30 cells are empty and exactly 51 cells are
non-editable, each holding a digit 1..9. -/
theorem removal_count (s : State) (baseRow : List Int) (gen : Nat → Nat × Nat)
    (hperm : baseRow.Perm digits) :
    (cellsToRemove 0 = 30 ∧ cellsToRemove 1 = 45 ∧ cellsToRemove 2 = 70) ∧
    emptyCount (populateSudokuGrid s baseRow gen).sudokuGrid
      ≤ cellsToRemove s.difficultyLevel ∧
    (distinctDraws gen (cellsToRemove s.difficultyLevel) →
      emptyCount (populateSudokuGrid s baseRow gen).sudokuGrid
        = cellsToRemove s.difficultyLevel) ∧
    (s.difficultyLevel = 0 → distinctDraws gen 30 →
      emptyCount (populateSudokuGrid s baseRow gen).sudokuGrid = 30 ∧
      falseCount (populateSudokuGrid s baseRow gen).isEditable = 51 ∧
      ∀ r < gridSize, ∀ c < gridSize,
        (populateSudokuGrid s baseRow gen).isEditable r c = false →
          1 ≤ (populateSudokuGrid s baseRow gen).sudokuGrid r c ∧
          (populateSudokuGrid s baseRow gen).sudokuGrid r c ≤ 9) := by
  have hiff := fun r hr c hc => populate_empty_iff s baseRow gen hperm r c hr hc
  refine ⟨⟨by decide, by decide, by decide⟩, emptyCount_le _ gen _ hiff,
    fun hd => emptyCount_distinct _ gen _ hiff hd, fun h0 hd => ?_⟩
  have hn : cellsToRemove s.difficultyLevel = 30 := by rw [h0]; decide
  have hcount : emptyCount (populateSudokuGrid s baseRow gen).sudokuGrid = 30 := by
    rw [emptyCount_distinct _ gen _ hiff (by rw [hn]; exact hd), hn]
  have hsum := falseCount_add_emptyCount (populateSudokuGrid s baseRow gen).sudokuGrid
    (populateSudokuGrid s baseRow gen).isEditable
    (fun r hr c hc => (populate_editable_iff s baseRow gen r c).trans (hiff r hr c hc).symm)
  refine ⟨hcount, by omega, fun r hr c hc hf => ?_⟩
  have hnd : ¬ drawn gen (cellsToRemove s.difficultyLevel) r c := by
    intro hx
    rw [(populate_editable_iff s baseRow gen r c).mpr hx] at hf
    exact absurd hf (by simp)
  rw [((populate_spec s baseRow gen r c).2.1 hnd).1]
  exact baseGrid_allDigits baseRow hperm r hr c hc

/-- C10 at a concrete input: Easy difficulty with thirty pairwise distinct draws. -/
theorem removal_count_witness :
    shuffledRow.Perm digits ∧ distinctDraws sweepGen 30 ∧
      emptyCount (populateSudokuGrid (boardState emptyGrid) shuffledRow sweepGen).sudokuGrid
        = 30 ∧
      falseCount (populateSudokuGrid (boardState emptyGrid) shuffledRow sweepGen).isEditable
        = 51 :=
  ⟨shuffledRow_perm, sweepGen_distinct,
    ((removal_count (boardState emptyGrid) shuffledRow sweepGen shuffledRow_perm).2.2.2 rfl
      sweepGen_distinct).1,
    ((removal_count (boardState emptyGrid) shuffledRow sweepGen shuffledRow_perm).2.2.2 rfl
      sweepGen_distinct).2.1⟩

/-! ## The window procedure -/

/-- Effect of a digit key on a selected editable cell: the digit is stored and the cell is
flagged exactly when `isValidEntry`, called on the board before the write, rejects the digit. -/
theorem onKeyDown_digit (s : State) (wParam : Nat)
    (hsel : s.selectedRow ≠ -1 ∧ s.selectedCol ≠ -1 ∧
      s.isEditable s.selectedRow.toNat s.selectedCol.toNat = true)
    (hkey : 1 ≤ keyOf wParam ∧ keyOf wParam ≤ 9) :
    onKeyDown s wParam =
      { s with
        sudokuGrid := setCell s.sudokuGrid s.selectedRow.toNat s.selectedCol.toNat (keyOf wParam),
        isIncorrect := setFlag s.isIncorrect s.selectedRow.toNat s.selectedCol.toNat
          (!isValidEntry s.sudokuGrid s.selectedRow.toNat s.selectedCol.toNat (keyOf wParam)) } := by
  unfold onKeyDown
  rw [if_pos hsel]
  dsimp only
  rw [if_pos hkey, (isPuzzleSolved_spec _).1]
  cases isValidEntry s.sudokuGrid s.selectedRow.toNat s.selectedCol.toNat (keyOf wParam) <;> rfl

/-- Effect of Backspace or Delete on a selected editable cell. -/
theorem onKeyDown_clear (s : State) (wParam : Nat)
    (hsel : s.selectedRow ≠ -1 ∧ s.selectedCol ≠ -1 ∧
      s.isEditable s.selectedRow.toNat s.selectedCol.toNat = true)
    (hkey : ¬ (1 ≤ keyOf wParam ∧ keyOf wParam ≤ 9))
    (hclr : wParam = VK_BACK ∨ wParam = VK_DELETE) :
    onKeyDown s wParam =
      { s with
        sudokuGrid := setCell s.sudokuGrid s.selectedRow.toNat s.selectedCol.toNat 0,
        isIncorrect := setFlag s.isIncorrect s.selectedRow.toNat s.selectedCol.toNat false } := by
  unfold onKeyDown
  rw [if_pos hsel]
  dsimp only
  rw [if_neg hkey, if_pos hclr]

/-- The key handler does nothing without an editable selection or on any other key. -/
theorem onKeyDown_ignored (s : State) (wParam : Nat)
    (h : ¬ (s.selectedRow ≠ -1 ∧ s.selectedCol ≠ -1 ∧
        s.isEditable s.selectedRow.toNat s.selectedCol.toNat = true) ∨
      (¬ (1 ≤ keyOf wParam ∧ keyOf wParam ≤ 9) ∧ wParam ≠ VK_BACK ∧ wParam ≠ VK_DELETE)) :
    onKeyDown s wParam = s := by
  unfold onKeyDown
  by_cases hsel : s.selectedRow ≠ -1 ∧ s.selectedCol ≠ -1 ∧
      s.isEditable s.selectedRow.toNat s.selectedCol.toNat = true
  · rcases h with h | ⟨h1, h2, h3⟩
    · exact absurd hsel h
    · rw [if_pos hsel]
      dsimp only
      rw [if_neg h1, if_neg (by rintro (hx | hx); exact h2 hx; exact h3 hx)]
  · rw [if_neg hsel]

theorem setFlag_same (m : Mask) (row col : Nat) (b : Bool) : setFlag m row col b row col = b := by
  simp [setFlag]

theorem setFlag_other (m : Mask) (row col : Nat) (b : Bool) (r c : Nat)
    (h : r ≠ row ∨ c ≠ col) : setFlag m row col b r c = m r c := by
  unfold setFlag
  rw [if_neg ((cell_ne_iff r c row col).mp h)]

/-- The keys `'1'`..`'9'` are read as the digits 1..9. -/
theorem keyOf_digit (d : Nat) (h1 : 1 ≤ d) (h9 : d ≤ 9) : keyOf (48 + d) = (d : Int) := by
  unfold keyOf
  dsimp only
  have e : (48 + d + (4294967296 - 48)) % 4294967296 = d := by omega
  rw [e, if_pos (by omega)]

theorem keyOf_clear : ¬ (1 ≤ keyOf VK_BACK ∧ keyOf VK_BACK ≤ 9) ∧
    ¬ (1 ≤ keyOf VK_DELETE ∧ keyOf VK_DELETE ≤ 9) := by decide


/-! ## The clue invariant -/

theorem clueInv_click (g s : State) (lParam : Nat) (h : ClueInv g s) :
    ClueInv g (onLButtonDown s lParam) := by
  unfold onLButtonDown
  dsimp only
  split
  · exact h
  · exact h

theorem clueInv_key (g s : State) (wParam : Nat) (h : ClueInv g s) :
    ClueInv g (onKeyDown s wParam) := by
  by_cases hsel : s.selectedRow ≠ -1 ∧ s.selectedCol ≠ -1 ∧
      s.isEditable s.selectedRow.toNat s.selectedCol.toNat = true
  · have hother : ∀ r c, g.isEditable r c = false →
        (r ≠ s.selectedRow.toNat ∨ c ≠ s.selectedCol.toNat) := by
      intro r c hf
      rw [cell_ne_iff]
      rintro ⟨e1, e2⟩
      rw [e1, e2, ← h.1, hsel.2.2] at hf
      exact absurd hf (by simp)
    by_cases hkey : 1 ≤ keyOf wParam ∧ keyOf wParam ≤ 9
    · rw [onKeyDown_digit s wParam hsel hkey]
      refine ⟨h.1, fun r hr c hc hf => ?_⟩
      dsimp only
      rw [setCell_other _ _ _ _ _ _ (hother r c hf)]
      exact h.2 r hr c hc hf
    · by_cases hclr : wParam = VK_BACK ∨ wParam = VK_DELETE
      · rw [onKeyDown_clear s wParam hsel hkey hclr]
        refine ⟨h.1, fun r hr c hc hf => ?_⟩
        dsimp only
        rw [setCell_other _ _ _ _ _ _ (hother r c hf)]
        exact h.2 r hr c hc hf
      · rw [onKeyDown_ignored s wParam (Or.inr ⟨hkey, fun hx => hclr (Or.inl hx),
          fun hx => hclr (Or.inr hx)⟩)]
        exact h
  · rw [onKeyDown_ignored s wParam (Or.inl hsel)]
    exact h

/-- The Auto Complete button always produces a state. -/
theorem onAutoComplete_terminates (s : State) : ∃ s', onAutoComplete s = some s' := by
  obtain ⟨⟨b, s1⟩, hres⟩ := solve_terminates solveDepth 0 0 s (by decide) (by decide)
    (by omega)
  refine ⟨(isPuzzleSolved s1).2, ?_⟩
  unfold onAutoComplete autoComplete
  rw [hres]

theorem clueInv_solver (g s s' : State) (h : ClueInv g s)
    (hnz : ∀ r < gridSize, ∀ c < gridSize, g.isEditable r c = false → g.sudokuGrid r c ≠ 0)
    (hrun : onAutoComplete s = some s') : ClueInv g s' := by
  unfold onAutoComplete autoComplete at hrun
  rcases hres : solve solveDepth 0 0 s with _ | ⟨b, s1⟩
  · rw [hres] at hrun
    exact absurd hrun (by simp)
  · rw [hres] at hrun
    simp only [Option.some.injEq] at hrun
    rw [(isPuzzleSolved_spec s1).1] at hrun
    subst hrun
    obtain ⟨h1, _, _, _, _, h6, _⟩ := solve_frame _ _ _ _ _ _ hres
    refine ⟨h1.trans h.1, fun r hr c hc hf => ?_⟩
    have e := h.2 r hr c hc hf
    rw [h6 r c (by rw [e]; exact hnz r hr c hc hf), e]

theorem clueInv_run (g : State)
    (hnz : ∀ r < gridSize, ∀ c < gridSize, g.isEditable r c = false → g.sudokuGrid r c ≠ 0)
    (events : List Event) (s : State) (h : ClueInv g s) :
    ∃ s', runEvents s events = some s' ∧ ClueInv g s' := by
  induction events generalizing s with
  | nil => exact ⟨s, rfl, h⟩
  | cons e es ih =>
    unfold runEvents
    cases e with
    | click lParam => exact ih _ (clueInv_click g s lParam h)
    | key wParam => exact ih _ (clueInv_key g s wParam h)
    | solver =>
      obtain ⟨s1, hs1⟩ := onAutoComplete_terminates s
      unfold applyEvent
      rw [hs1]
      exact ih _ (clueInv_solver g s s1 h hnz hs1)

/-! ## The solver: least filling -/

theorem candidates_sorted : candidates.Pairwise (fun a b => a < b) := by decide

theorem lexLE_of_fills (g f1 f2 : Grid) (row col : Nat) (hrow : row < gridSize)
    (hcol : col < gridSize) (h1 : FillsFrom g f1 (row * gridSize + col))
    (h2 : FillsFrom g f2 (row * gridSize + col)) (hlt : f1 row col < f2 row col) :
    lexLE f1 f2 := by
  refine Or.inr ⟨row, hrow, col, hcol, hlt, fun r2 hr2 c2 hc2 hp => ?_⟩
  rw [(h1 r2 hr2 c2 hc2).1 (Or.inr hp), (h2 r2 hr2 c2 hc2).1 (Or.inr hp)]

theorem tryCandidates_least (k : State → Option (Bool × State)) (row col : Nat)
    (hrow : row < gridSize) (hcol : col < gridSize)
    (hkf : ∀ s1 b s2, k s1 = some (b, s2) → SolveFrame s1 b s2)
    (hks : ∀ s1 s2, k s1 = some (true, s2) →
      FillsFrom s1.sudokuGrid s2.sudokuGrid (row * gridSize + col + 1))
    (hkc : ∀ s1, (∃ f, FillsFrom s1.sudokuGrid f (row * gridSize + col + 1)) →
      ∃ s2, k s1 = some (true, s2))
    (hkl : ∀ s1 s2 f, k s1 = some (true, s2) →
      FillsFrom s1.sudokuGrid f (row * gridSize + col + 1) → lexLE s2.sudokuGrid f)
    (s : State) (h0 : s.sudokuGrid row col = 0) (f : Grid)
    (hf : FillsFrom s.sudokuGrid f (row * gridSize + col)) (nums : List Int)
    (hsorted : nums.Pairwise (fun a b => a < b)) (hnums : ∀ n ∈ nums, 1 ≤ n ∧ n ≤ 9)
    (hmem : f row col ∈ nums) (s' : State)
    (h : tryCandidates k row col nums s = some (true, s')) :
    lexLE s'.sudokuGrid f := by
  obtain ⟨_, hvf, hff⟩ := fills_place_conv s.sudokuGrid f row col hrow hcol h0 hf
  induction nums with
  | nil => exact absurd hmem (List.not_mem_nil _)
  | cons num nums ih =>
    have hs2 := List.pairwise_cons.mp hsorted
    have ih2 := ih hs2.2 (fun n hn => hnums n (List.mem_cons_of_mem _ hn))
    unfold tryCandidates at h
    by_cases hv : isValidEntry s.sudokuGrid row col num = true
    · rw [if_pos hv] at h
      rcases hres : k { s with sudokuGrid := setCell s.sudokuGrid row col num } with _ | ⟨b1, s1⟩
      · rw [hres] at h
        exact absurd h (by simp)
      · rw [hres] at h
        cases b1
        · have hs1 := (hkf _ _ _ hres).2.2.2.2.2.2 rfl
          subst hs1
          dsimp only at h
          rw [place_clear s row col num h0] at h
          refine ih2 ?_ h
          rcases List.mem_cons.mp hmem with hx | hx
          · exfalso
            obtain ⟨s2, hs2⟩ := hkc { s with sudokuGrid := setCell s.sudokuGrid row col num }
              ⟨f, by rw [← hx]; exact hff⟩
            rw [hres] at hs2
            simp at hs2
          · exact hx
        · dsimp only at h
          simp only [Option.some.injEq, Prod.mk.injEq, true_and] at h
          subst h
          have hnum := hnums num (List.mem_cons_self _ _)
          have hfill := hks _ _ hres
          rcases List.mem_cons.mp hmem with hx | hx
          · exact hkl _ _ f hres (by rw [← hx]; exact hff)
          · have hlt := hs2.1 _ hx
            have hval : s1.sudokuGrid row col = num := by
              have := (hfill row hrow col hcol).1 (Or.inl (by
                dsimp only; rw [setCell_same]; omega))
              rw [this]
              exact setCell_same _ _ _ _
            exact lexLE_of_fills s.sudokuGrid _ f row col hrow hcol
              (fills_place _ _ row col hrow hcol num hnum h0 hv hfill) hf (by rw [hval]; exact hlt)
    · rw [if_neg hv] at h
      refine ih2 ?_ h
      rcases List.mem_cons.mp hmem with hx | hx
      · rw [hx] at hvf
        exact absurd hvf hv
      · exact hx

/-- When the search returns true, the board it leaves is lexicographically at most every
conflict-free filling of the board it started from. -/
theorem solve_least (depth row col : Nat) (s s' : State) (hcol : col < gridSize)
    (hpos : row * gridSize + col ≤ gridSize * gridSize)
    (hd : solveDepth ≤ depth + (row * gridSize + col))
    (h : solve depth row col s = some (true, s'))
    (f : Grid) (hf : FillsFrom s.sudokuGrid f (row * gridSize + col)) :
    lexLE s'.sudokuGrid f := by
  induction depth generalizing row col s s' f with
  | zero => simp [solve] at h
  | succ depth ih =>
    unfold solve at h
    by_cases hrow : row = gridSize
    · rw [if_pos hrow] at h
      simp only [Option.some.injEq, Prod.mk.injEq, true_and] at h
      subst h
      refine Or.inl (fun r hr c hc => (hf r hr c hc).1 (Or.inr ?_))
      unfold gridSize at *
      omega
    · rw [if_neg hrow] at h
      dsimp only at h
      obtain ⟨hp, hnc⟩ := next_pos row col hcol
      have hrow2 : row < gridSize := by unfold gridSize at *; omega
      have hlt : row * gridSize + col + 1 ≤ gridSize * gridSize := by
        unfold gridSize at *; omega
      have ih2 := fun s1 s2 f1 hx => ih _ _ s1 s2 hnc (by rw [hp]; exact hlt)
        (by rw [hp]; omega) hx f1
      rw [hp] at ih2
      by_cases h0 : s.sudokuGrid row col ≠ 0
      · rw [if_pos h0] at h
        exact ih2 _ _ f h (fills_skip_conv _ _ row col hcol h0 hf)
      · rw [if_neg h0] at h
        have h00 : s.sudokuGrid row col = 0 := by simpa using h0
        have hks := fun s1 s2 hx => solve_sound depth _ _ s1 s2 hnc (by rw [hp]; exact hlt) hx
        have hkc := fun s1 f1 hx => solve_complete depth _ _ s1 hnc (by rw [hp]; exact hlt)
          (by rw [hp]; omega) f1 hx
        rw [hp] at hks hkc
        exact tryCandidates_least _ row col hrow2 hcol
          (fun s1 b s2 hx => solve_frame _ _ _ _ _ _ hx) hks
          (fun s1 ⟨f1, hf1⟩ => hkc s1 f1 hf1) ih2 s h00 f hf _ candidates_sorted
          (fun n hn => (mem_candidates_iff n).mp hn)
          ((mem_candidates_iff _).mpr
            (fills_place_conv s.sudokuGrid f row col hrow2 hcol h00 hf).1) s' h


theorem emptyGrid_hasCompletion : hasCompletion emptyGrid :=
  ⟨bandGrid, by decide, fun _ _ _ _ h0 => absurd rfl h0⟩

theorem ones_succeeds :
    solve solveDepth 0 0 (boardState onesGrid) = some (true, boardState onesGrid) := by
  rfl

theorem swappedBand_validFull : validFull swappedBand := by decide

theorem bandGrid_validFull : validFull bandGrid := by decide

theorem baseGrid_digits (r c : Nat) (hr : r < gridSize) (hc : c < gridSize) :
    baseGrid digits r c = bandGrid r c := by
  rw [baseGrid_apply digits r c hr hc]
  have h : ∀ r < gridSize, ∀ c < gridSize,
      digits.getD ((c + r * 3 + r / 3) % gridSize) 0 = bandGrid r c := by decide
  exact h r hr c hc

theorem onesTwos_drawn : ∀ r < gridSize, ∀ c < gridSize,
    ¬ drawn onesTwosGen 30 r c → swappedBand r c = bandGrid r c := by decide

/-! ## Claims, continued -/

set_option maxRecDepth 100000 in
/-- C11, evaluated at a failing input. On the Easy puzzle generated from the unshuffled base
row with all draws on the diagonal, the user clicks cell (0,0) and presses `'1'` twice. After
the first press the cell holds 1 and is not flagged; after the second press it still holds 1
and is flagged incorrect, although no other cell of its row, column or box holds 1. -/
theorem keydown_retyped_digit_flagged :
    (∃ s1, runEvents (populateSudokuGrid (boardState emptyGrid) digits diagGen)
        [Event.click 0, Event.key 49] = some s1 ∧
      s1.sudokuGrid 0 0 = 1 ∧ s1.isIncorrect 0 0 = false) ∧
    (∃ s2, runEvents (populateSudokuGrid (boardState emptyGrid) digits diagGen)
        [Event.click 0, Event.key 49, Event.key 49] = some s2 ∧
      s2.sudokuGrid 0 0 = 1 ∧ s2.isIncorrect 0 0 = true ∧
      ¬ heldByOther s2.sudokuGrid 0 0 1) :=
  ⟨⟨_, rfl, by decide, by decide⟩, ⟨_, rfl, by decide, by decide, by decide⟩⟩


/-- C12. Clue invariant: from every output of `populateSudokuGrid` (for a permutation `baseRow`
of 1..9), every finite sequence of cell clicks, key presses and solver runs is executed to
a state, and in that state the `isEditable` mask is the one generation produced and every
non-editable cell of the board holds the digit 1..9 that generation gave it; so only editable
cells ever change value. -/
theorem clue_invariant (s0 : State) (baseRow : List Int) (gen : Nat → Nat × Nat)
    (hperm : baseRow.Perm digits) (events : List Event) :
    ∃ s, runEvents (populateSudokuGrid s0 baseRow gen) events = some s ∧
      s.isEditable = (populateSudokuGrid s0 baseRow gen).isEditable ∧
      ∀ r < gridSize, ∀ c < gridSize, s.isEditable r c = false →
        s.sudokuGrid r c = (populateSudokuGrid s0 baseRow gen).sudokuGrid r c ∧
        1 ≤ s.sudokuGrid r c ∧ s.sudokuGrid r c ≤ 9 := by
  have hclue : ∀ r < gridSize, ∀ c < gridSize,
      (populateSudokuGrid s0 baseRow gen).isEditable r c = false →
        1 ≤ (populateSudokuGrid s0 baseRow gen).sudokuGrid r c ∧
        (populateSudokuGrid s0 baseRow gen).sudokuGrid r c ≤ 9 := by
    intro r hr c hc hf
    have hnd : ¬ drawn gen (cellsToRemove s0.difficultyLevel) r c := by
      intro hx
      rw [(populate_editable_iff s0 baseRow gen r c).mpr hx] at hf
      exact absurd hf (by simp)
    rw [((populate_spec s0 baseRow gen r c).2.1 hnd).1]
    exact baseGrid_allDigits baseRow hperm r hr c hc
  obtain ⟨s, hrun, hinv⟩ := clueInv_run (populateSudokuGrid s0 baseRow gen)
    (fun r hr c hc hf => by have := hclue r hr c hc hf; omega) events
    (populateSudokuGrid s0 baseRow gen) ⟨rfl, fun _ _ _ _ _ => rfl⟩
  refine ⟨s, hrun, hinv.1, fun r hr c hc hf => ?_⟩
  rw [hinv.1] at hf
  rw [hinv.2 r hr c hc hf]
  exact ⟨rfl, hclue r hr c hc hf⟩

/-- C12 at a concrete input: a generated Easy puzzle, then a click, three keys and a solver
run. -/
theorem clue_invariant_witness :
    shuffledRow.Perm digits ∧
      ∃ s, runEvents (populateSudokuGrid (boardState emptyGrid) shuffledRow diagGen)
          [Event.click 0, Event.key 49, Event.key 8, Event.key 65, Event.solver] = some s ∧
        s.isEditable = (populateSudokuGrid (boardState emptyGrid) shuffledRow diagGen).isEditable ∧
        ∀ r < gridSize, ∀ c < gridSize, s.isEditable r c = false →
          s.sudokuGrid r c
            = (populateSudokuGrid (boardState emptyGrid) shuffledRow diagGen).sudokuGrid r c ∧
          1 ≤ s.sudokuGrid r c ∧ s.sudokuGrid r c ≤ 9 :=
  ⟨shuffledRow_perm,
    clue_invariant (boardState emptyGrid) shuffledRow diagGen shuffledRow_perm
      [Event.click 0, Event.key 49, Event.key 8, Event.key 65, Event.solver]⟩

/-- C13. The completion checker does not mutate the board: after `isPuzzleSolved` returns, with
true or with false, the globals are the ones before the call, so every cell holds the value it
held, and a second call on the state it leaves returns the same result. -/
theorem isPuzzleSolved_no_mutation (s : State) :
    (isPuzzleSolved s).2 = s ∧
    (∀ r c, (isPuzzleSolved s).2.sudokuGrid r c = s.sudokuGrid r c) ∧
    (isPuzzleSolved (isPuzzleSolved s).2).1 = (isPuzzleSolved s).1 := by
  have h := (isPuzzleSolved_spec s).1
  refine ⟨h, fun r c => by rw [h], by rw [h]⟩

/-- C14. Empty-grid scenario: started on the board whose 81 cells are all empty, `solve(0,0)`
returns true (for every call-depth budget of at least 82 frames) and leaves a board with no
empty cell in which every row, column and box contains each of 1..9 exactly once. -/
theorem empty_grid_solved (s : State) (depth : Nat) (hd : solveDepth ≤ depth)
    (hg : s.sudokuGrid = emptyGrid) :
    ∃ s', solve depth 0 0 s = some (true, s') ∧
      noEmpty s'.sudokuGrid ∧ validFull s'.sudokuGrid := by
  obtain ⟨s', hs', hv, _⟩ := solve_of_completion s depth hd
    (by rw [hg]; exact emptyGrid_hasCompletion)
  refine ⟨s', hs', fun r hr c hc h0 => ?_, hv⟩
  have := validFull_allDigits _ hv r hr c hc
  omega

/-- C14 at the initial globals of the solver variant: empty board, every cell editable. -/
theorem empty_grid_solved_witness :
    solveDepth ≤ solveDepth ∧
      ∃ s', autoComplete { boardState emptyGrid with isEditable := fun _ _ => true }
          = some (true, s') ∧ noEmpty s'.sudokuGrid ∧ validFull s'.sudokuGrid :=
  ⟨le_refl _, empty_grid_solved { boardState emptyGrid with isEditable := fun _ _ => true }
    solveDepth (le_refl _) rfl⟩

/-- C15. Uniqueness is not guaranteed: for the unshuffled base row, Easy difficulty and draws
that hit the cells holding 1 or 2, the puzzle left by `populateSudokuGrid` has two valid
completions that differ in cell (0,0). -/
theorem uniqueness_not_guaranteed :
    ∃ baseRow : List Int, baseRow.Perm digits ∧
      ∃ (difficulty : Int) (gen : Nat → Nat × Nat) (h1 h2 : Grid),
        isCompletion (populateSudokuGrid { boardState emptyGrid with
          difficultyLevel := difficulty } baseRow gen).sudokuGrid h1 ∧
        isCompletion (populateSudokuGrid { boardState emptyGrid with
          difficultyLevel := difficulty } baseRow gen).sudokuGrid h2 ∧
        ∃ r < gridSize, ∃ c < gridSize, h1 r c ≠ h2 r c := by
  refine ⟨digits, List.Perm.refl _, 0, onesTwosGen, bandGrid, swappedBand,
    ⟨bandGrid_validFull, fun r hr c hc h0 => ?_⟩, ⟨swappedBand_validFull, fun r hr c hc h0 => ?_⟩,
    0, by decide, 0, by decide, by decide⟩
  · obtain ⟨h1, h2, _⟩ := populate_spec { boardState emptyGrid with difficultyLevel := 0 }
      digits onesTwosGen r c
    by_cases hd : drawn onesTwosGen 30 r c
    · exact absurd (h1 hd).1 h0
    · rw [(h2 hd).1]
      exact (baseGrid_digits r c hr hc).symm
  · obtain ⟨h1, h2, _⟩ := populate_spec { boardState emptyGrid with difficultyLevel := 0 }
      digits onesTwosGen r c
    by_cases hd : drawn onesTwosGen 30 r c
    · exact absurd (h1 hd).1 h0
    · rw [(h2 hd).1, baseGrid_digits r c hr hc]
      exact onesTwos_drawn r hr c hc hd


/-- C16. Edits touch the selected editable cell only. The `WM_KEYDOWN` handler leaves all
globals unchanged when no cell is selected, when the selected cell is not editable, or when
the key is neither a digit 1..9 nor Backspace/Delete. Otherwise a digit key stores the digit
in the selected cell and changes nothing but that cell's value and incorrect flag, and
Backspace/Delete empties the selected cell, clears its incorrect flag and changes nothing
else. -/
theorem keydown_frame (s : State) (wParam : Nat) :
    ((s.selectedRow = -1 ∨ s.selectedCol = -1 ∨
        s.isEditable s.selectedRow.toNat s.selectedCol.toNat = false ∨
        (¬ (1 ≤ keyOf wParam ∧ keyOf wParam ≤ 9) ∧ wParam ≠ VK_BACK ∧ wParam ≠ VK_DELETE)) →
      onKeyDown s wParam = s) ∧
    ((s.selectedRow ≠ -1 ∧ s.selectedCol ≠ -1 ∧
        s.isEditable s.selectedRow.toNat s.selectedCol.toNat = true) →
      (1 ≤ keyOf wParam ∧ keyOf wParam ≤ 9 ∨ wParam = VK_BACK ∨ wParam = VK_DELETE) →
      (onKeyDown s wParam).sudokuGrid s.selectedRow.toNat s.selectedCol.toNat
        = (if 1 ≤ keyOf wParam ∧ keyOf wParam ≤ 9 then keyOf wParam else 0) ∧
      ((wParam = VK_BACK ∨ wParam = VK_DELETE) →
        (onKeyDown s wParam).isIncorrect s.selectedRow.toNat s.selectedCol.toNat = false) ∧
      (∀ r c, (r ≠ s.selectedRow.toNat ∨ c ≠ s.selectedCol.toNat) →
        (onKeyDown s wParam).sudokuGrid r c = s.sudokuGrid r c ∧
        (onKeyDown s wParam).isIncorrect r c = s.isIncorrect r c) ∧
      (onKeyDown s wParam).isEditable = s.isEditable ∧
      (onKeyDown s wParam).selectedRow = s.selectedRow ∧
      (onKeyDown s wParam).selectedCol = s.selectedCol ∧
      (onKeyDown s wParam).difficultyLevel = s.difficultyLevel) := by
  constructor
  · intro h
    apply onKeyDown_ignored
    rcases h with h | h | h | h
    · exact Or.inl (fun hx => hx.1 h)
    · exact Or.inl (fun hx => hx.2.1 h)
    · exact Or.inl (fun hx => by rw [h] at hx; exact absurd hx.2.2 (by simp))
    · exact Or.inr h
  · intro hsel hkey
    by_cases hd : 1 ≤ keyOf wParam ∧ keyOf wParam ≤ 9
    · rw [onKeyDown_digit s wParam hsel hd, if_pos hd]
      refine ⟨setCell_same _ _ _ _, fun hc => ?_, fun r c hne =>
        ⟨setCell_other _ _ _ _ _ _ hne, setFlag_other _ _ _ _ _ _ hne⟩, rfl, rfl, rfl, rfl⟩
      exfalso
      rcases hc with hc | hc
      · rw [hc] at hd; exact keyOf_clear.1 hd
      · rw [hc] at hd; exact keyOf_clear.2 hd
    · have hclr : wParam = VK_BACK ∨ wParam = VK_DELETE := by
        rcases hkey with hk | hk | hk
        · exact absurd hk hd
        · exact Or.inl hk
        · exact Or.inr hk
      rw [onKeyDown_clear s wParam hsel hd hclr, if_neg hd]
      exact ⟨setCell_same _ _ _ _, fun _ => setFlag_same _ _ _ _, fun r c hne =>
        ⟨setCell_other _ _ _ _ _ _ hne, setFlag_other _ _ _ _ _ _ hne⟩, rfl, rfl, rfl, rfl⟩

/-- C16 at concrete inputs: the letter key `'A'` is ignored, `'7'` is stored, Delete
empties the cell. -/
theorem keydown_frame_witness :
    onKeyDown cornerFiveSelected 65 = cornerFiveSelected ∧
    (onKeyDown cornerFiveSelected 55).sudokuGrid 0 0 = 7 ∧
    (onKeyDown cornerFiveSelected VK_DELETE).sudokuGrid 0 0 = 0 ∧
    (onKeyDown cornerFiveSelected VK_DELETE).isIncorrect 0 0 = false :=
  ⟨(keydown_frame cornerFiveSelected 65).1 (Or.inr (Or.inr (Or.inr (by decide)))),
    ((keydown_frame cornerFiveSelected 55).2 (by decide) (by decide)).1,
    ((keydown_frame cornerFiveSelected VK_DELETE).2 (by decide) (by decide)).1,
    ((keydown_frame cornerFiveSelected VK_DELETE).2 (by decide) (by decide)).2.1
      (Or.inr rfl)⟩

/-- C17. The solver returns the least completion: on every board that has at least one valid
completion, `solve(0,0)` returns true (for every call-depth budget of at least 82 frames) and
the board it leaves is a valid completion that is lexicographically at most every valid
completion, the 81 cell values being read row-major. -/
theorem solver_least_completion (s : State) (depth : Nat) (hd : solveDepth ≤ depth)
    (hc : hasCompletion s.sudokuGrid) :
    ∃ s', solve depth 0 0 s = some (true, s') ∧
      isCompletion s.sudokuGrid s'.sudokuGrid ∧
      ∀ h, isCompletion s.sudokuGrid h → lexLE s'.sudokuGrid h := by
  obtain ⟨s', hs', hcomp⟩ := solve_of_completion s depth hd hc
  refine ⟨s', hs', hcomp, fun h hh => ?_⟩
  exact solve_least depth 0 0 s s' (by decide) (by decide) (by omega) hs' h
    (by simpa using completion_fills _ _ hh)

/-- C17 at a concrete input: the shifted-band grid with its diagonal emptied. -/
theorem solver_least_completion_witness :
    solveDepth ≤ solveDepth ∧ hasCompletion (boardState diagPuzzle).sudokuGrid ∧
      ∃ s', autoComplete (boardState diagPuzzle) = some (true, s') ∧
        isCompletion diagPuzzle s'.sudokuGrid ∧
        ∀ h, isCompletion diagPuzzle h → lexLE s'.sudokuGrid h :=
  ⟨le_refl _, diagPuzzle_hasCompletion,
    solver_least_completion (boardState diagPuzzle) solveDepth (le_refl _)
      diagPuzzle_hasCompletion⟩

/-- C18. Partial correctness on arbitrary boards: whenever `solve(0,0)` returns true, the final
board has no empty cell, every cell that was empty at the start holds a digit 1..9 that no
other cell of its row, column or box holds in the final board, and any two distinct cells of
one row, column or box that hold the same value in the final board were both non-empty at the
start. -/
theorem solver_partial_correctness (s s' : State) (depth : Nat)
    (h : solve depth 0 0 s = some (true, s')) :
    noEmpty s'.sudokuGrid ∧
    (∀ r < gridSize, ∀ c < gridSize, s.sudokuGrid r c = 0 →
      (1 ≤ s'.sudokuGrid r c ∧ s'.sudokuGrid r c ≤ 9) ∧ noConflictAt s'.sudokuGrid r c) ∧
    (∀ r < gridSize, ∀ c < gridSize, ∀ r2 < gridSize, ∀ c2 < gridSize,
      (r2 ≠ r ∨ c2 ≠ c) → sees r c r2 c2 → s'.sudokuGrid r2 c2 = s'.sudokuGrid r c →
        s.sudokuGrid r c ≠ 0 ∧ s.sudokuGrid r2 c2 ≠ 0) := by
  have hf : FillsFrom s.sudokuGrid s'.sudokuGrid 0 := by
    simpa using solve_sound depth 0 0 s s' (by decide) (by decide) h
  refine ⟨fills_noEmpty _ _ hf, fun r hr c hc h0 => (hf r hr c hc).2 ⟨h0, Nat.zero_le _⟩, ?_⟩
  intro r hr c hc r2 hr2 c2 hc2 hne hs heq
  constructor
  · intro h0
    exact ((hf r hr c hc).2 ⟨h0, Nat.zero_le _⟩).2 r2 hr2 c2 hc2 hne hs heq
  · intro h0
    refine ((hf r2 hr2 c2 hc2).2 ⟨h0, Nat.zero_le _⟩).2 r hr c hc ?_ (sees_symm hs) heq.symm
    rcases hne with hx | hx
    · exact Or.inl (fun hy => hx hy.symm)
    · exact Or.inr (fun hy => hx hy.symm)

/-- C18 at a concrete input whose pre-filled cells conflict: the board of 1s with an empty
corner. The search returns true with 2 placed in the corner; the corner was empty at the start,
holds a digit that no other cell of its row, column or box holds, and every conflict of the
final board is between two cells that were non-empty at the start. -/
theorem solver_partial_correctness_witness :
    solve solveDepth 0 0 (boardState onesHole)
      = some (true, { boardState onesHole with sudokuGrid := setCell onesHole 0 0 2 }) ∧
    onesHole 0 0 = 0 ∧ setCell onesHole 0 0 2 0 0 = 2 ∧
    setCell onesHole 0 0 2 0 1 = setCell onesHole 0 0 2 0 2 ∧
    noEmpty (setCell onesHole 0 0 2) ∧
    (∀ r < gridSize, ∀ c < gridSize, onesHole r c = 0 →
      (1 ≤ setCell onesHole 0 0 2 r c ∧ setCell onesHole 0 0 2 r c ≤ 9) ∧
        noConflictAt (setCell onesHole 0 0 2) r c) ∧
    (∀ r < gridSize, ∀ c < gridSize, ∀ r2 < gridSize, ∀ c2 < gridSize,
      (r2 ≠ r ∨ c2 ≠ c) → sees r c r2 c2 →
        setCell onesHole 0 0 2 r2 c2 = setCell onesHole 0 0 2 r c →
          onesHole r c ≠ 0 ∧ onesHole r2 c2 ≠ 0) :=
  ⟨onesHole_succeeds, by decide, by decide, by decide,
    solver_partial_correctness (boardState onesHole)
      { boardState onesHole with sudokuGrid := setCell onesHole 0 0 2 } solveDepth
      onesHole_succeeds⟩

/-- C19. What `isValidEntry` decides when the target cell does not hold the value: for row and
col in 0..8 and a value that cell `(row, col)` does not hold, `isValidEntry(row, col, value)`
returns true iff no cell of row `row`, no cell of column `col` and no cell of the box with
top-left corner `((row/3)*3, (col/3)*3)` holds value; equivalently, iff no other cell of the
row, column or box holds it. -/
theorem isValidEntry_true_iff (g : Grid) (row col : Nat) (value : Int)
    (hr : row < gridSize) (hc : col < gridSize) (hne : g row col ≠ value) :
    (isValidEntry g row col value = true ↔
      (∀ i < gridSize, g row i ≠ value) ∧ (∀ i < gridSize, g i col ≠ value) ∧
      (∀ i < 3, ∀ j < 3, g ((row / 3) * 3 + i) ((col / 3) * 3 + j) ≠ value)) ∧
    (isValidEntry g row col value = true ↔ ¬ heldByOther g row col value) := by
  have h := isValidEntry_iff g row col value hr hc
  constructor
  · rw [h]
    constructor
    · intro hx
      refine ⟨fun i hi => hx row hr i hi (Or.inl rfl),
        fun i hi => hx i hi col hc (Or.inr (Or.inl rfl)), fun i hi j hj => ?_⟩
      unfold gridSize at *
      exact hx _ (by omega) _ (by omega) (Or.inr (Or.inr ⟨by omega, by omega⟩))
    · rintro ⟨h1, h2, h3⟩ r hr2 c hc2 hs
      rcases hs with hs | hs | ⟨hs1, hs2⟩
      · rw [hs]; exact h1 c hc2
      · rw [hs]; exact h2 r hr2
      · have := h3 (r - row / 3 * 3) (by omega) (c - col / 3 * 3) (by omega)
        have e1 : row / 3 * 3 + (r - row / 3 * 3) = r := by omega
        have e2 : col / 3 * 3 + (c - col / 3 * 3) = c := by omega
        rw [e1, e2] at this
        exact this
  · rw [h]
    constructor
    · rintro hx ⟨r2, hr2, c2, hc2, _, hs, hv⟩
      exact hx r2 hr2 c2 hc2 hs hv
    · intro hx r hr2 c hc2 hs hv
      by_cases hcell : r = row ∧ c = col
      · rw [hcell.1, hcell.2] at hv
        exact hne hv
      · exact hx ⟨r, hr2, c, hc2, (cell_ne_iff r c row col).mpr hcell, hs, hv⟩

/-- C19 at a concrete input: 5 is rejected for the empty cell (0,1) next to the 5 in (0,0)
and accepted for the empty cell (4,4). -/
theorem isValidEntry_true_iff_witness :
    cornerFive 0 1 ≠ 5 ∧ isValidEntry cornerFive 0 1 5 = false ∧
      heldByOther cornerFive 0 1 5 ∧ isValidEntry cornerFive 4 4 5 = true :=
  ⟨by decide, by decide,
    by_contra (fun hx =>
      absurd ((isValidEntry_true_iff cornerFive 0 1 5 (by decide) (by decide) (by decide)).2.mpr
        hx) (by decide)),
    (isValidEntry_true_iff cornerFive 4 4 5 (by decide) (by decide) (by decide)).2.mpr
      (by decide)⟩


end Sudoku
